import Mathlib

/-!
Verification of the dependency-driven task scheduler core of the
llm-orchestrator repository: a shallow embedding of the dependency graph
(`src/dependencies/dependency-graph.ts`), Kahn topological sort
(`src/dependencies/topological-sort.ts`), dependency manager
(`src/dependencies/dependency-manager.ts`), condition evaluator
(`src/dependencies/condition-evaluator.ts`), retry policy
(`src/recovery/retry-policy.ts`), error detector
(`src/recovery/error-detector.ts`) and recovery manager
(`src/recovery/recovery-manager.ts`), together with proofs about them.

Modelling conventions:
* JavaScript `Map` objects (insertion-ordered, keyed by strings) are
  modelled as association lists in insertion order; `Map.set` on an
  existing key updates the entry in place, on a fresh key it appends.
* JavaScript numbers are modelled as `Nat`/`Int` (the scheduler only
  manipulates small non-negative counters and millisecond delays);
  `Math.round` of a non-negative rational `n / d` is the half-up rounding
  `(2*n + d) / (2*d)` in natural-number division.
* A thrown `Error` is modelled as `Except.error` carrying the message;
  an `Error` value itself is modelled by its message string.
* The task `result` payload (TypeScript `any`) is a type parameter `V`;
  an output-based condition predicate, which may throw, is a function
  `Option V → Except Unit Bool` whose `error` outcome models a thrown
  exception.
* In phase 5 a dependency entry is `string | ConditionalDependency`.
  When the code uses such an entry directly as a `Map` key
  (`nodes.get(depId)`, `visited.has(depId)` …), an object entry never
  matches a string key, and since every dependency object reference is
  consulted at most once per traversal, its net effect is that of a
  fresh unknown id: lookups miss.  The embedding reflects that by making
  object (`Dep.cond`) entries fail every id lookup.
-/

set_option maxHeartbeats 1000000

namespace LLMOrch

/-- `TaskStatus` from `src/dependencies/types.ts`. -/
inductive TaskStatus where
  | pending
  | waiting
  | ready
  | inProgress
  | completed
  | failed
  | skipped
deriving DecidableEq, Repr

/-- `ExecutionCondition | ((result) => boolean)`: the condition stored on a
conditional dependency.  `pred f` is an output-based predicate; `f r =
.error ()` models the predicate throwing. -/
inductive Condition (V : Type) where
  | success
  | failure
  | any
  | pred (f : Option V → Except Unit Bool)

/-- `ConditionalDependency` from `src/dependencies/types.ts`. -/
structure CondDep (V : Type) where
  taskId : String
  condition : Condition V

/-- One entry of `dependencies: (string | ConditionalDependency)[]`. -/
inductive Dep (V : Type) where
  | plain (id : String)
  | cond (d : CondDep V)

/-- `SubtaskWithDependencies` from `src/dependencies/types.ts`. -/
structure Subtask (V : Type) where
  id : String
  description : String := ""
  dependencies : List (Dep V) := []
  status : TaskStatus := TaskStatus.pending
  assignedTo : Option String := none
  createdAt : Option Nat := none
  startedAt : Option Nat := none
  completedAt : Option Nat := none
  result : Option V := none
  progress : Option Nat := none

/-- The task id referenced by a dependency entry (`normalize`d task id). -/
def Dep.target {V : Type} : Dep V → String
  | Dep.plain i => i
  | Dep.cond d => d.taskId

/- ----------------------------------------------------------------- -/
/- Condition evaluator (`src/dependencies/condition-evaluator.ts`)   -/
/- ----------------------------------------------------------------- -/

/-- `normalizeDependency`: a bare string becomes `(id, 'success')`,
structured dependencies pass through. -/
def normalizeDependency {V : Type} (dep : Dep V) : CondDep V :=
  match dep with
  | Dep.plain id => { taskId := id, condition := Condition.success }
  | Dep.cond d => d

/-- `evaluateCondition`.  The `default:` throw branches of the TypeScript
switch are unreachable here because `Condition` enumerates exactly the
legal condition values; a predicate that throws is caught and treated as
`false`. -/
def evaluateCondition {V : Type} (dependency : CondDep V) (depStatus : TaskStatus)
    (depResult : Option V) : Bool :=
  match dependency.condition with
  | Condition.success => depStatus == TaskStatus.completed
  | Condition.failure => depStatus == TaskStatus.failed
  | Condition.any =>
      depStatus == TaskStatus.completed || depStatus == TaskStatus.failed ||
        depStatus == TaskStatus.skipped
  | Condition.pred f =>
      match f depResult with
      | Except.ok b => b
      | Except.error _ => false

/-- `areDependenciesReady(dependencies, getDepStatus)`. -/
def areDependenciesReady {V : Type} (dependencies : List (Dep V))
    (getDepStatus : String → TaskStatus × Option V) : Bool :=
  dependencies.all (fun dep =>
    let normalized := normalizeDependency dep
    let depInfo := getDepStatus normalized.taskId
    (depInfo.1 == TaskStatus.completed || depInfo.1 == TaskStatus.failed ||
      depInfo.1 == TaskStatus.skipped) &&
    evaluateCondition normalized depInfo.1 depInfo.2)

/- ----------------------------------------------------------------- -/
/- Retry policy (`src/recovery/retry-policy.ts`)                     -/
/- ----------------------------------------------------------------- -/

/-- `BackoffType`. -/
inductive BackoffType where
  | linear
  | exponential
deriving DecidableEq, Repr

/-- `RetryPolicy`. -/
structure RetryPolicy where
  maxRetries : Nat
  initialDelay : Nat
  maxDelay : Nat
  backoff : BackoffType
deriving DecidableEq, Repr

/-- `RetryPolicyManager.createDefault()`. -/
def createDefault : RetryPolicy :=
  { maxRetries := 3, initialDelay := 1000, maxDelay := 60000,
    backoff := BackoffType.exponential }

/-- `RetryPolicyManager.calculateDelay(retryCount)`.  The `default:`
branch of the backoff switch (returning `initialDelay`) is unreachable
because `BackoffType` enumerates the two legal values. -/
def calculateDelay (policy : RetryPolicy) (retryCount : Int) : Except String Nat :=
  if retryCount ≤ 0 then
    Except.ok policy.initialDelay
  else if (policy.maxRetries : Int) < retryCount then
    Except.error ("Retry count " ++ toString retryCount ++ " exceeds maximum " ++
      toString policy.maxRetries)
  else
    let delay : Nat :=
      match policy.backoff with
      | BackoffType.linear => policy.initialDelay * (retryCount.toNat + 1)
      | BackoffType.exponential => policy.initialDelay * 2 ^ retryCount.toNat
    Except.ok (min delay policy.maxDelay)

/-- `RetryPolicyManager.shouldRetry(retryCount)`. -/
def shouldRetryPolicy (policy : RetryPolicy) (retryCount : Int) : Bool :=
  retryCount < (policy.maxRetries : Int)

/- ----------------------------------------------------------------- -/
/- Error detector (`src/recovery/error-detector.ts`)                 -/
/- ----------------------------------------------------------------- -/

/-- `message.includes(pat)`: substring occurrence test. -/
def strIncludes (s pat : String) : Bool :=
  s.data.tails.any (fun t => pat.data.isPrefixOf t)

/-- `message.toLowerCase()`; character-by-character lowering (the
messages matched against are ASCII). -/
def toLowerStr (s : String) : String := String.mk (s.data.map Char.toLower)

/-- `ErrorSeverity`. -/
inductive ErrorSeverity where
  | low
  | medium
  | high
  | critical
deriving DecidableEq, Repr

/-- `ErrorDetector.isRecoverable(error)`; `error` is modelled by its
message. -/
def isRecoverable (message : String) : Bool :=
  let m := toLowerStr message
  strIncludes m "econnreset" || strIncludes m "etimedout" ||
    strIncludes m "econnrefused" ||
    strIncludes m "timeout" || strIncludes m "timed out" ||
    strIncludes m "rate limit"

/-- `ErrorDetector.getSeverity(error)`. -/
def getSeverity (message : String) : ErrorSeverity :=
  let m := toLowerStr message
  if strIncludes m "fatal" || strIncludes m "critical" ||
      strIncludes m "disk full" || strIncludes m "out of memory" then
    ErrorSeverity.critical
  else if strIncludes m "critical" || strIncludes m "permission denied" ||
      strIncludes m "access denied" || strIncludes m "security" then
    ErrorSeverity.high
  else if strIncludes m "timeout" || strIncludes m "rate limit" then
    ErrorSeverity.medium
  else
    ErrorSeverity.low

/- ----------------------------------------------------------------- -/
/- Recovery manager (`src/recovery/recovery-manager.ts`)             -/
/- ----------------------------------------------------------------- -/

/-- `ErrorStrategy`: the strings `'continue' | 'stop' | 'ask'`. -/
inductive ErrorStrategy where
  | cont
  | stop
  | ask
deriving DecidableEq, Repr

/-- `ErrorInfo`; the raw `Error` is modelled by its message string. -/
structure ErrorInfo where
  subtaskId : String
  agentId : String
  error : String
  timestamp : Nat
  retryCount : Int
  lastRetryAt : Option Nat := none
deriving DecidableEq, Repr

/-- `RecoveryAction`. -/
inductive RecoveryAction where
  | retry
  | reassign (newAgentId : String)
  | split (newSubtasks : List String)
  | skip
  | manualIntervention (reason : String)
deriving DecidableEq, Repr

/-- `ErrorHandlerResult`. -/
structure ErrorHandlerResult where
  action : RecoveryAction
  shouldRetry : Bool
  delay : Option Nat := none
deriving DecidableEq, Repr

/-- Association-list lookup, modelling `Map.get`. -/
def alookup {α : Type} (l : List (String × α)) (k : String) : Option α :=
  (l.find? (fun p => p.1 == k)).map (fun p => p.2)

/-- Association-list update of an existing key, modelling `Map.set` on a
key that is already present (the entry keeps its position). -/
def aset {α : Type} (l : List (String × α)) (k : String) (v : α) :
    List (String × α) :=
  l.map (fun p => if p.1 == k then (p.1, v) else p)

/-- `Map.set`: update in place when the key exists, append otherwise. -/
def asetOrAppend {α : Type} (l : List (String × α)) (k : String) (v : α) :
    List (String × α) :=
  if l.any (fun p => p.1 == k) then aset l k v else l ++ [(k, v)]

/-- The mutable state of a `RecoveryManager` instance. -/
structure RecoveryManager where
  retryPolicy : RetryPolicy
  strategy : ErrorStrategy
  errorHistory : List (String × List ErrorInfo)

/-- `getErrorHistory(subtaskId)`: `this.errorHistory.get(id) || []`. -/
def getErrorHistory (m : RecoveryManager) (subtaskId : String) : List ErrorInfo :=
  (alookup m.errorHistory subtaskId).getD []

/-- `recordError(errorInfo)`. -/
def recordError (m : RecoveryManager) (e : ErrorInfo) : RecoveryManager :=
  let history := (alookup m.errorHistory e.subtaskId).getD []
  { m with errorHistory := asetOrAppend m.errorHistory e.subtaskId (history ++ [e]) }

/-- The private `RecoveryManager.shouldRetry(errorInfo)`. -/
def managerShouldRetry (m : RecoveryManager) (e : ErrorInfo) : Bool :=
  isRecoverable e.error && shouldRetryPolicy m.retryPolicy e.retryCount

/-- `RecoveryManager.determineAction(errorInfo)`.  (The computed local
`isRecoverable` of the source is unused there.) -/
def determineAction (m : RecoveryManager) (e : ErrorInfo) : ErrorHandlerResult :=
  if getSeverity e.error = ErrorSeverity.critical then
    { action := RecoveryAction.manualIntervention "Critical error detected",
      shouldRetry := false }
  else
    match m.strategy with
    | ErrorStrategy.cont => { action := RecoveryAction.skip, shouldRetry := false }
    | ErrorStrategy.stop =>
        { action := RecoveryAction.manualIntervention
            "Error occurred and stop strategy is set",
          shouldRetry := false }
    | ErrorStrategy.ask =>
        { action := RecoveryAction.manualIntervention "User intervention requested",
          shouldRetry := false }

/-- `RecoveryManager.handleError(errorInfo)` (the `async` wrapper is
pure state manipulation): returns the updated manager state and the
result; a thrown error (from `calculateDelay`) is the `Except.error`
case. -/
def handleError (m : RecoveryManager) (e : ErrorInfo) :
    RecoveryManager × Except String ErrorHandlerResult :=
  let m' := recordError m e
  if managerShouldRetry m e then
    match calculateDelay m.retryPolicy e.retryCount with
    | Except.ok delay => (m', Except.ok ⟨RecoveryAction.retry, true, some delay⟩)
    | Except.error msg => (m', Except.error msg)
  else
    (m', Except.ok (determineAction m e))

/- ----------------------------------------------------------------- -/
/- Dependency graph (`src/dependencies/dependency-graph.ts`)         -/
/- ----------------------------------------------------------------- -/

/-- `DependencyNode`. -/
structure Node (V : Type) where
  subtask : Subtask V
  dependents : List String
  indegree : Nat

/-- The `nodes : Map<string, DependencyNode>` of a `DependencyGraph`, in
insertion order; entries are keyed by `subtask.id`. -/
abbrev DependencyGraph (V : Type) := List (Node V)

/-- `nodes.get(id)`. -/
def findNode {V : Type} (g : DependencyGraph V) (id : String) : Option (Node V) :=
  g.find? (fun n => n.subtask.id == id)

/-- `getSubtask(id)`. -/
def getSubtask {V : Type} (g : DependencyGraph V) (id : String) : Option (Subtask V) :=
  (findNode g id).map (fun n => n.subtask)

/-- `this.graph.getSubtask(depId)` on a raw dependency entry: an object
(conditional) entry never matches a string `Map` key, so the lookup
misses. -/
def getSubtaskRaw {V : Type} (g : DependencyGraph V) (dep : Dep V) :
    Option (Subtask V) :=
  match dep with
  | Dep.plain id => getSubtask g id
  | Dep.cond _ => none

/-- `depNode.dependents.push(subtask.id)` guarded by `if (depNode)`:
append `childId` to the dependents of the node keyed `depId`, no-op when
that key is absent.  Keys are unique, so mapping over all entries is the
in-place update of the one matching entry. -/
def pushDependent {V : Type} (g : DependencyGraph V) (depId childId : String) :
    DependencyGraph V :=
  g.map (fun n => if n.subtask.id == depId then
    { n with dependents := n.dependents ++ [childId] } else n)

/-- The back-link loop of `addSubtask`: `for (const depId of
subtask.dependencies) { const depNode = this.nodes.get(depId); if
(depNode) depNode.dependents.push(subtask.id); }` — only bare-id
entries can match a key. -/
def linkDeps {V : Type} : DependencyGraph V → List (Dep V) → String →
    DependencyGraph V
  | g, [], _ => g
  | g, Dep.plain depId :: rest, child =>
      linkDeps (pushDependent g depId child) rest child
  | g, Dep.cond _ :: rest, child => linkDeps g rest child

/-- `addSubtask(subtask)`: duplicate ids are rejected; the node is
inserted (with `indegree = dependencies.length`) before the back-link
pass, so a self-dependency links onto the new node, and dependency
entries whose key is not (yet) present are silently skipped. -/
def addSubtask {V : Type} (g : DependencyGraph V) (s : Subtask V) :
    Except String (DependencyGraph V) :=
  if g.any (fun n => n.subtask.id == s.id) then
    Except.error ("Subtask with id " ++ s.id ++ " already exists")
  else
    Except.ok (linkDeps
      (g ++ [{ subtask := s, dependents := [], indegree := s.dependencies.length }])
      s.dependencies s.id)

/-- Insert a list of subtasks in order (`addSubtask` for each). -/
def buildGraph {V : Type} (ts : List (Subtask V)) : Except String (DependencyGraph V) :=
  ts.foldlM addSubtask []

/-- The timestamp stamping of `updateStatus`; `Date.now()` is passed in
as `now` (`!node.subtask.startedAt` is an unset-check: real timestamps
are nonzero). -/
def applyStatus {V : Type} (s : Subtask V) (status : TaskStatus) (now : Nat) :
    Subtask V :=
  let s' := { s with status := status }
  if status = TaskStatus.inProgress ∧ s.startedAt = none then
    { s' with startedAt := some now }
  else if status = TaskStatus.completed ∨ status = TaskStatus.failed ∨
      status = TaskStatus.skipped then
    { s' with completedAt := some now }
  else s'

/-- `updateStatus(id, status)`. -/
def updateStatus {V : Type} (g : DependencyGraph V) (id : String)
    (status : TaskStatus) (now : Nat) : Except String (DependencyGraph V) :=
  match findNode g id with
  | none => Except.error ("Subtask with id " ++ id ++ " not found")
  | some _ => Except.ok (g.map (fun n => if n.subtask.id == id then
      { n with subtask := applyStatus n.subtask status now } else n))

/-- `CycleResult`. -/
structure CycleResult where
  hasCycle : Bool
  cycle : Option (List String) := none
deriving DecidableEq, Repr

/-- The mutable state of the cycle-detection DFS: the `visited` set, the
recursion stack and the current path; the two sets are modelled as
duplicate-free lists in insertion order. -/
structure DfsState where
  visited : List String
  recStack : List String
  path : List String
deriving DecidableEq, Repr

/-- `currentPath.slice(currentPath.indexOf(depId))`; the id is always
present when this is evaluated (it was found on the recursion stack,
which mirrors the path). -/
def cycleSlice (path : List String) (depId : String) : List String :=
  path.drop (path.findIdx (fun x => x == depId))

/-- The recursive `dfs(nodeId, currentPath)` of `detectCycle`.  `fuel`
bounds the recursion depth (each call is on a not-yet-visited id, so the
`dfsFuel` budget below always suffices; exhausted fuel reports no cycle
and is unreachable on the calls `detectCycle` makes).  The early returns
of a found cycle are the `Except.error` case.  A conditional-dependency
object used as a set/`Map` key matches nothing and each object reference
is consulted at most once, so such an entry has no observable effect and
is skipped. -/
def dfsVisit {V : Type} (g : DependencyGraph V) :
    Nat → String → DfsState → Except (List String) DfsState
  | 0, _, st => Except.ok st
  | fuel + 1, nodeId, st =>
    let st1 : DfsState :=
      ⟨st.visited ++ [nodeId], st.recStack ++ [nodeId], st.path ++ [nodeId]⟩
    let deps : List (Dep V) :=
      match findNode g nodeId with
      | some node => node.subtask.dependencies
      | none => []
    match deps.foldlM (fun (st' : DfsState) dep =>
        match dep with
        | Dep.cond _ => Except.ok st'
        | Dep.plain depId =>
          if st'.visited.contains depId then
            if st'.recStack.contains depId then
              Except.error (cycleSlice st'.path depId)
            else Except.ok st'
          else dfsVisit g fuel depId st') st1 with
    | Except.error cycle => Except.error cycle
    | Except.ok st2 =>
        Except.ok ⟨st2.visited, st2.recStack.erase nodeId, st2.path.dropLast⟩

/-- Enough fuel for `dfsVisit`: every node id and every (possibly
missing) dependency id is visited at most once. -/
def dfsFuel {V : Type} (g : DependencyGraph V) : Nat :=
  g.length + (g.map (fun n => n.subtask.dependencies.length)).sum + 1

/-- The root loop of `detectCycle()`: iterate the node ids in insertion
order and start a DFS with a fresh path array at every unvisited one;
the `visited` set and the recursion stack persist across roots (the
stack is empty again after every normal return). -/
def detectCycleGo {V : Type} (g : DependencyGraph V) :
    List String → DfsState → CycleResult
  | [], _ => { hasCycle := false }
  | id :: rest, st =>
    if st.visited.contains id then detectCycleGo g rest st
    else
      match dfsVisit g (dfsFuel g) id ⟨st.visited, st.recStack, []⟩ with
      | Except.error cycle => { hasCycle := true, cycle := some cycle }
      | Except.ok st' => detectCycleGo g rest st'

/-- `detectCycle()`. -/
def detectCycle {V : Type} (g : DependencyGraph V) : CycleResult :=
  detectCycleGo g (g.map (fun n => n.subtask.id)) ⟨[], [], []⟩

/-- `getDependents(id)`. -/
def getDependents {V : Type} (g : DependencyGraph V) (id : String) : List String :=
  match findNode g id with
  | some n => n.dependents
  | none => []

/- ----------------------------------------------------------------- -/
/- Topological sort (`src/dependencies/topological-sort.ts`)         -/
/- ----------------------------------------------------------------- -/

/-- The working `indegree : Map<string, number>` of the sort; JavaScript
number arithmetic on the counters is exact integer arithmetic here. -/
abbrev IndMap := List (String × Int)

/-- Decrement the indegrees of the `dependents` entries in order,
enqueueing each id whose counter lands exactly on 0.  An id absent from
the map is skipped: in the source such an id (never the id of a real
node) is set to `NaN`, which never compares equal to 0. -/
def processDependents (ind : IndMap) (queue : List String)
    (dependents : List String) : IndMap × List String :=
  dependents.foldl (fun (acc : IndMap × List String) depId =>
    match alookup acc.1 depId with
    | none => acc
    | some c =>
      let c' := c - 1
      (aset acc.1 depId c', if c' = 0 then acc.2 ++ [depId] else acc.2))
    (ind, queue)

/-- Process one parallel level: each id of the level is emitted onto
`order` by the caller and its node's dependents are decremented (an id
with no node — impossible for queued ids — has no dependents). -/
def processLevel {V : Type} (g : DependencyGraph V) (ind : IndMap)
    (level : List String) : IndMap × List String :=
  level.foldl (fun (acc : IndMap × List String) nodeId =>
    match findNode g nodeId with
    | none => acc
    | some node => processDependents acc.1 acc.2 node.dependents)
    (ind, [])

/-- The `while (queue.length > 0)` loop of `sort`: the whole current
queue is drained as one level (`queue.splice(0, queue.length)`), pushed
onto `order` and `parallelLevels`, and the dependents that reach
indegree 0 form the next queue.  `fuel` bounds the iteration count;
`sort` passes `g.length + 1`, which always suffices because every
iteration emits at least one id and no id is ever enqueued twice. -/
def sortLoop {V : Type} (g : DependencyGraph V) :
    Nat → List String → IndMap → List String → List (List String) →
      List String × List (List String)
  | 0, _, _, order, levels => (order, levels)
  | fuel + 1, queue, ind, order, levels =>
    if queue.isEmpty then (order, levels)
    else
      let r := processLevel g ind queue
      sortLoop g fuel r.2 r.1 (order ++ queue) (levels ++ [queue])

/-- The error thrown by `TopologicalSort.sort` on a cycle. -/
def cycleMsg : String :=
  "Graph contains a cycle and cannot be topologically sorted"

/-- `ExecutionOrder`. -/
structure ExecutionOrder where
  order : List String
  parallelLevels : List (List String)
deriving DecidableEq, Repr

/-- `TopologicalSort.sort()` (Kahn's algorithm). -/
def sort {V : Type} (g : DependencyGraph V) : Except String ExecutionOrder :=
  if g.isEmpty then Except.ok ⟨[], []⟩
  else
    let ind : IndMap := g.map (fun n => (n.subtask.id, (n.indegree : Int)))
    let queue : List String :=
      (g.filter (fun n => n.indegree == 0)).map (fun n => n.subtask.id)
    if queue.isEmpty then Except.error cycleMsg
    else
      let r := sortLoop g (g.length + 1) queue ind [] []
      if r.1.length ≠ g.length then Except.error cycleMsg
      else Except.ok ⟨r.1, r.2⟩

/-- The initial indegree map of `sort` (proof-side name for its first
`let`). -/
def initInd {V : Type} (g : DependencyGraph V) : IndMap :=
  g.map (fun n => (n.subtask.id, (n.indegree : Int)))

/-- The initial queue of `sort` (proof-side name for its second `let`):
all nodes of indegree 0, in insertion order. -/
def initQueue {V : Type} (g : DependencyGraph V) : List String :=
  (g.filter (fun n => n.indegree == 0)).map (fun n => n.subtask.id)

/-- `getExecutionOrder()`. -/
def getExecutionOrder {V : Type} (g : DependencyGraph V) :
    Except String (List String) :=
  (sort g).map (fun eo => eo.order)

/-- `getParallelLevels()`. -/
def getParallelLevels {V : Type} (g : DependencyGraph V) :
    Except String (List (List String)) :=
  (sort g).map (fun eo => eo.parallelLevels)

/- ----------------------------------------------------------------- -/
/- Dependency manager (`src/dependencies/dependency-manager.ts`)     -/
/- ----------------------------------------------------------------- -/

/-- `getAllSubtasks()`. -/
def getAllSubtasks {V : Type} (g : DependencyGraph V) : List (Subtask V) :=
  g.map (fun n => n.subtask)

/-- `DependencyManager.getReadySubtasks()`: status PENDING or WAITING,
and every raw dependency entry — used directly as a lookup key — must
resolve to a task whose status is COMPLETED. -/
def getReadySubtasks {V : Type} (g : DependencyGraph V) : List (Subtask V) :=
  (getAllSubtasks g).filter (fun subtask =>
    (subtask.status == TaskStatus.pending ||
      subtask.status == TaskStatus.waiting) &&
    subtask.dependencies.all (fun depId =>
      match getSubtaskRaw g depId with
      | some dep => dep.status == TaskStatus.completed
      | none => false))

/-- `markCompleted(id)`. -/
def markCompleted {V : Type} (g : DependencyGraph V) (id : String) (now : Nat) :
    Except String (DependencyGraph V) :=
  updateStatus g id TaskStatus.completed now

/-- The per-status counter record built by `getSubtasksByStatus()`. -/
structure StatusCounts where
  pending : Nat := 0
  waiting : Nat := 0
  ready : Nat := 0
  inProgress : Nat := 0
  completed : Nat := 0
  failed : Nat := 0
  skipped : Nat := 0
deriving DecidableEq, Repr

/-- `counts[subtask.status]++`. -/
def bumpStatus (c : StatusCounts) : TaskStatus → StatusCounts
  | TaskStatus.pending => { c with pending := c.pending + 1 }
  | TaskStatus.waiting => { c with waiting := c.waiting + 1 }
  | TaskStatus.ready => { c with ready := c.ready + 1 }
  | TaskStatus.inProgress => { c with inProgress := c.inProgress + 1 }
  | TaskStatus.completed => { c with completed := c.completed + 1 }
  | TaskStatus.failed => { c with failed := c.failed + 1 }
  | TaskStatus.skipped => { c with skipped := c.skipped + 1 }

/-- `getSubtasksByStatus()`. -/
def getSubtasksByStatus {V : Type} (g : DependencyGraph V) : StatusCounts :=
  (getAllSubtasks g).foldl (fun c s => bumpStatus c s.status) {}

/-- The record returned by `getExecutionSummary()`. -/
structure ExecutionSummary where
  total : Nat
  completed : Nat
  failed : Nat
  inProgress : Nat
  waiting : Nat
  pending : Nat
  percentage : Nat
deriving DecidableEq, Repr

/-- `Math.round(num / den)` for a non-negative rational: half-up
rounding in exact arithmetic. -/
def roundRat (num den : Nat) : Nat := (2 * num + den) / (2 * den)

/-- `getExecutionSummary()`: the local `completed` adds the SKIPPED
count, and `percentage = Math.round((completed / total) * 100)` over
that sum (0 when there are no tasks). -/
def getExecutionSummary {V : Type} (g : DependencyGraph V) : ExecutionSummary :=
  let counts := getSubtasksByStatus g
  let total := g.length
  let completed := counts.completed + counts.skipped
  let percentage := if 0 < total then roundRat (completed * 100) total else 0
  { total := total, completed := completed, failed := counts.failed,
    inProgress := counts.inProgress, waiting := counts.waiting,
    pending := counts.pending, percentage := percentage }

/-- The number of tasks of a given status, the specification-side
counting expression. -/
def countStatus {V : Type} (g : DependencyGraph V) (st : TaskStatus) : Nat :=
  (getAllSubtasks g).countP (fun s => s.status == st)

/- ----------------------------------------------------------------- -/
/- Proof-side notions about graphs                                   -/
/- ----------------------------------------------------------------- -/

/-- The node ids of a graph, in insertion order. -/
def idsOf {V : Type} (g : DependencyGraph V) : List String :=
  g.map (fun n => n.subtask.id)

/-- Whether a dependency entry is a bare id belonging to `S`. -/
def plainIn {V : Type} (S : List String) : Dep V → Bool
  | Dep.plain i => S.contains i
  | Dep.cond _ => false

/-- Whether a dependency entry is the bare id `i`. -/
def isPlainTo {V : Type} (i : String) : Dep V → Bool
  | Dep.plain j => j == i
  | Dep.cond _ => false

/-- Occurrences of the bare id `i` in a dependency list. -/
def countPlainDep {V : Type} (l : List (Dep V)) (i : String) : Nat :=
  (l.filter (isPlainTo i)).length

/-- Number of dependencies of `s` not yet satisfied by the emitted list
`S`: entries that are not bare ids belonging to `S`. -/
def remCount {V : Type} (s : Subtask V) (S : List String) : Nat :=
  (s.dependencies.filter (fun d => !(plainIn S d))).length

/-- Decrements contributed to the counter of `tid` by emitting `e`. -/
def decOf {V : Type} (g : DependencyGraph V) (e tid : String) : Nat :=
  match findNode g e with
  | some n => n.dependents.count tid
  | none => 0

/-- Total decrements to the counter of `tid` after emitting `S`. -/
def decSum {V : Type} (g : DependencyGraph V) (S : List String) (tid : String) :
    Nat :=
  (S.map (fun e => decOf g e tid)).sum

/-- Structural invariants of every graph reachable by `addSubtask`
insertions: ids are unique, the stored indegree is the declared
dependency count, each node occurs in a dependents list at most as often
as it names that list's owner as a bare dependency, and dependents
entries are node ids. -/
structure BuiltInv {V : Type} (g : DependencyGraph V) : Prop where
  nodup : (idsOf g).Nodup
  indeg : ∀ n ∈ g, n.indegree = n.subtask.dependencies.length
  depBound : ∀ n ∈ g, ∀ m ∈ g,
    n.dependents.count m.subtask.id ≤
      countPlainDep m.subtask.dependencies n.subtask.id
  depClosed : ∀ n ∈ g, ∀ x ∈ n.dependents, x ∈ idsOf g

/-- Additional invariants of graphs built in dependency order (every
declared dependency a bare id inserted strictly earlier): back-links are
exact and every dependency is a bare id of some node. -/
structure StrongInv {V : Type} (g : DependencyGraph V) : Prop where
  depExact : ∀ n ∈ g, ∀ m ∈ g,
    n.dependents.count m.subtask.id =
      countPlainDep m.subtask.dependencies n.subtask.id
  allPlain : ∀ m ∈ g, ∀ dep ∈ m.subtask.dependencies,
    plainIn (idsOf g) dep = true

/-- The tasks of `ts` are listed in dependency order relative to the
already-inserted ids `seen`: every dependency of every task is a bare id
either in `seen` or of an earlier task of `ts`. -/
def depOrdered {V : Type} : List String → List (Subtask V) → Bool
  | _, [] => true
  | seen, t :: rest =>
      t.dependencies.all (plainIn seen) && depOrdered (seen ++ [t.id]) rest

/-- A directed dependency edge recorded in the graph: the node `a`
declares the bare dependency `b` (so `b → a` must be scheduled with `b`
first). -/
def EdgeTo {V : Type} (g : DependencyGraph V) (a b : String) : Prop :=
  ∃ n ∈ g, n.subtask.id = a ∧ Dep.plain b ∈ n.subtask.dependencies

/-- A chain of `EdgeTo` steps along consecutive elements. -/
def ChainE {V : Type} (g : DependencyGraph V) : List String → Prop
  | [] => True
  | [_] => True
  | a :: b :: rest => EdgeTo g a b ∧ ChainE g (b :: rest)

/-- The per-node effect of the back-link pass for a child `child` with
dependency list `deps`: `child` is appended once per occurrence of the
node's id as a bare dependency. -/
def depUpd {V : Type} (deps : List (Dep V)) (child : String) (n : Node V) :
    Node V :=
  { n with dependents := n.dependents ++
      List.replicate (countPlainDep deps n.subtask.id) child }

/-- The `Map.set`-style node update performed for a fresh subtask `s`. -/
def linkUpd {V : Type} (s : Subtask V) (n : Node V) : Node V :=
  depUpd s.dependencies s.id n

/-- The freshly inserted node for a subtask `s`. -/
def newNode {V : Type} (s : Subtask V) : Node V :=
  { subtask := s, dependents := [], indegree := s.dependencies.length }

/-- The fold of `processLevel` with an explicit accumulator. -/
def levelFold {V : Type} (g : DependencyGraph V) (acc : IndMap × List String)
    (level : List String) : IndMap × List String :=
  level.foldl (fun (acc : IndMap × List String) nodeId =>
    match findNode g nodeId with
    | none => acc
    | some node => processDependents acc.1 acc.2 node.dependents) acc

/-- No dependency edge joins two ids of the level `L`. -/
def SameLevelOK {V : Type} (g : DependencyGraph V) (L : List String) : Prop :=
  ∀ n ∈ g, n.subtask.id ∈ L → ∀ dep ∈ n.subtask.dependencies,
    Dep.target dep ∉ L

/-- The invariant maintained at every entry of the `sortLoop` of Kahn's
algorithm over a graph with `BuiltInv`. -/
structure LoopInv {V : Type} (g : DependencyGraph V) (queue : List String)
    (ind : IndMap) (order : List String) : Prop where
  nodupOQ : (order ++ queue).Nodup
  subOQ : ∀ x ∈ order ++ queue, x ∈ idsOf g
  keys : ind.map (fun p => p.1) = idsOf g
  counter : ∀ n ∈ g, alookup ind n.subtask.id =
    some ((n.subtask.dependencies.length : Int) - decSum g order n.subtask.id)
  queueRem : ∀ n ∈ g, n.subtask.id ∈ queue → remCount n.subtask order = 0
  emitted : ∀ n ∈ g, n.subtask.id ∈ order ++ queue →
    (n.subtask.dependencies.length : Int) - decSum g order n.subtask.id ≤ 0
  before : ∀ n ∈ g, ∀ (k : Nat), order[k]? = some n.subtask.id →
    ∀ dep ∈ n.subtask.dependencies, Dep.target dep ∈ order.take k
  strongQueue : StrongInv g → ∀ n ∈ g, remCount n.subtask order = 0 →
    n.subtask.id ∉ order → n.subtask.id ∈ queue

/-- The three-task cycle used for C3 (`B` depends on `A`, `C` on `B`,
`A` on `C`: the edge cycle `A → B → C → A`). -/
def cycleTasks : List (Subtask Nat) := [
  { id := "A", dependencies := [Dep.plain "C"] },
  { id := "B", dependencies := [Dep.plain "A"] },
  { id := "C", dependencies := [Dep.plain "B"] }]

/-- A FAILED dependency guarded by a `'failure'` condition: satisfied
according to the specification, but `getReadySubtasks` never returns the
dependent. -/
def c4BlockedTasks : List (Subtask Nat) := [
  { id := "X", status := TaskStatus.failed },
  { id := "Y", dependencies := [Dep.cond ⟨"X", Condition.failure⟩] }]

/-- The diamond `A; B(deps:[A]); C(deps:[A]); D(deps:[B,C])` of the
end-to-end scenario. -/
def c4Tasks : List (Subtask Nat) := [
  { id := "A" },
  { id := "B", dependencies := [Dep.plain "A"] },
  { id := "C", dependencies := [Dep.plain "A"] },
  { id := "D", dependencies := [Dep.plain "B", Dep.plain "C"] }]

/-- A concrete two-node graph (`A` COMPLETED, `B` depending on it) for
the C4 witness. -/
def c4WitnessGraph : DependencyGraph Nat :=
  [{ subtask := { id := "A", status := TaskStatus.completed },
      dependents := ["B"], indegree := 0 },
   { subtask := { id := "B", dependencies := [Dep.plain "A"] },
      dependents := [], indegree := 1 }]

/-- The per-dependency step of the DFS loop body of `detectCycle` (the
loop over `node.subtask.dependencies` inside `dfs`), with the recursive
call at the remaining fuel. -/
def dfsStep {V : Type} (g : DependencyGraph V) (fuel : Nat) :
    DfsState → Dep V → Except (List String) DfsState :=
  fun st' dep =>
    match dep with
    | Dep.cond _ => Except.ok st'
    | Dep.plain depId =>
      if st'.visited.contains depId then
        if st'.recStack.contains depId then
          Except.error (cycleSlice st'.path depId)
        else Except.ok st'
      else dfsVisit g fuel depId st'

/-- Acyclicity of the recorded dependency edges whose target is a node
id, witnessed by a rank function that strictly decreases along every
such edge. -/
def AcyclicRank {V : Type} (g : DependencyGraph V) (rank : String → Nat) :
    Prop :=
  ∀ n ∈ g, ∀ dep ∈ n.subtask.dependencies,
    Dep.target dep ∈ idsOf g → rank (Dep.target dep) < rank n.subtask.id

/-- Two tasks inserted against dependency order: `B` names `A` before
`A` exists, so the back-link from `A` to `B` is never recorded. -/
def c1Tasks : List (Subtask Nat) := [
  { id := "B", dependencies := [Dep.plain "A"] },
  { id := "A" }]

/-- The graph built from `c1Tasks`: `B` keeps indegree 1 but `A` has no
dependents entry, so `B` is never enqueued by the sort. -/
def c1BadGraph : DependencyGraph Nat :=
  [{ subtask := { id := "B", dependencies := [Dep.plain "A"] },
     dependents := [], indegree := 1 },
   { subtask := { id := "A" }, dependents := [], indegree := 0 }]

/-- The same two tasks inserted in dependency order. -/
def c1GoodTasks : List (Subtask Nat) := [
  { id := "A" },
  { id := "B", dependencies := [Dep.plain "A"] }]

/-- The graph built from `c1GoodTasks`. -/
def c1GoodGraph : DependencyGraph Nat :=
  [{ subtask := { id := "A" }, dependents := ["B"], indegree := 0 },
   { subtask := { id := "B", dependencies := [Dep.plain "A"] },
     dependents := [], indegree := 1 }]

/-- A two-level diamond head (`A; B(deps:[A]); C(deps:[A])`) exercising
the level structure of the sort. -/
def c2Tasks : List (Subtask Nat) := [
  { id := "A" },
  { id := "B", dependencies := [Dep.plain "A"] },
  { id := "C", dependencies := [Dep.plain "A"] }]

/-- The graph built from `c2Tasks`. -/
def c2Graph : DependencyGraph Nat :=
  [{ subtask := { id := "A" }, dependents := ["B", "C"], indegree := 0 },
   { subtask := { id := "B", dependencies := [Dep.plain "A"] },
     dependents := [], indegree := 1 },
   { subtask := { id := "C", dependencies := [Dep.plain "A"] },
     dependents := [], indegree := 1 }]

/-- Task `B` declares the never-inserted dependency id `Z` next to the
real dependency `A`. -/
def c9Tasks : List (Subtask Nat) := [
  { id := "A" },
  { id := "B", dependencies := [Dep.plain "A", Dep.plain "Z"] }]

/-- The graph built from `c9Tasks`: `B` has indegree 2 but only one
back-link (`Z` contributes no dependents entry). -/
def c9Graph : DependencyGraph Nat :=
  [{ subtask := { id := "A" }, dependents := ["B"], indegree := 0 },
   { subtask := { id := "B", dependencies := [Dep.plain "A", Dep.plain "Z"] },
     dependents := [], indegree := 2 }]

/- ----------------------------------------------------------------- -/
/- Association-list lemmas                                           -/
/- ----------------------------------------------------------------- -/

@[simp] theorem alookup_nil {α : Type} (k : String) :
    alookup ([] : List (String × α)) k = none := rfl

theorem alookup_cons {α : Type} (p : String × α) (rest : List (String × α))
    (k : String) :
    alookup (p :: rest) k = if p.1 = k then some p.2 else alookup rest k := by
  by_cases h : p.1 = k <;> simp [alookup, List.find?_cons, h]

theorem aset_cons {α : Type} (p : String × α) (rest : List (String × α))
    (k : String) (v : α) :
    aset (p :: rest) k v = (if p.1 = k then (p.1, v) else p) :: aset rest k v := by
  by_cases h : p.1 = k <;> simp [aset, h]

theorem alookup_aset {α : Type} (l : List (String × α)) (k k' : String) (v : α) :
    alookup (aset l k v) k' = if k' = k then (alookup l k).map (fun _ => v)
      else alookup l k' := by
  induction l with
  | nil => by_cases h : k' = k <;> simp [aset, h]
  | cons p rest ih =>
      rw [aset_cons]
      by_cases hk' : k' = k
      · subst hk'
        by_cases hpk : p.1 = k' <;> simp [alookup_cons, hpk, ih]
      · have hkk' : ¬(k = k') := fun h => hk' h.symm
        by_cases hpk : p.1 = k <;> simp [alookup_cons, hpk, hk', hkk', ih]

theorem alookup_some_of_mem {α : Type} {l : List (String × α)} {p : String × α}
    {k : String} (hp : p ∈ l) (hk : p.1 = k) : ∃ w, alookup l k = some w := by
  induction l with
  | nil => cases hp
  | cons q rest ih =>
      rw [alookup_cons]
      by_cases hq : q.1 = k
      · exact ⟨q.2, by simp [hq]⟩
      · rcases List.mem_cons.mp hp with h | h
        · exact absurd (by rw [← h]; exact hk) hq
        · simpa [hq] using ih h

theorem alookup_eq_none_of_not_any {α : Type} {l : List (String × α)} {k : String}
    (h : l.any (fun p => p.1 == k) = false) : alookup l k = none := by
  induction l with
  | nil => rfl
  | cons q rest ih =>
      simp only [List.any_cons, Bool.or_eq_false_iff] at h
      rw [alookup_cons, if_neg (by simpa using h.1)]
      exact ih h.2

theorem alookup_append_of_none {α : Type} {l₁ : List (String × α)} {k : String}
    (h : alookup l₁ k = none) (l₂ : List (String × α)) :
    alookup (l₁ ++ l₂) k = alookup l₂ k := by
  induction l₁ with
  | nil => simp
  | cons q rest ih =>
      rw [alookup_cons] at h
      by_cases hq : q.1 = k
      · simp [hq] at h
      · rw [List.cons_append, alookup_cons, if_neg hq]
        exact ih (by simpa [hq] using h)

theorem alookup_asetOrAppend_self {α : Type} (l : List (String × α)) (k : String)
    (v : α) : alookup (asetOrAppend l k v) k = some v := by
  cases h : l.any (fun p => p.1 == k) with
  | false =>
      simp only [asetOrAppend, h, Bool.false_eq_true, if_false]
      rw [alookup_append_of_none (alookup_eq_none_of_not_any h), alookup_cons]
      simp
  | true =>
      simp only [asetOrAppend, h, if_true]
      rw [alookup_aset, if_pos rfl]
      obtain ⟨p, hp, hpk⟩ := List.any_eq_true.mp h
      obtain ⟨w, hw⟩ := alookup_some_of_mem hp (by simpa using hpk)
      simp [hw]

theorem getErrorHistory_recordError_self (m : RecoveryManager) (e : ErrorInfo) :
    getErrorHistory (recordError m e) e.subtaskId =
      getErrorHistory m e.subtaskId ++ [e] := by
  unfold getErrorHistory recordError
  simp only
  rw [alookup_asetOrAppend_self]
  rfl

theorem managerShouldRetry_iff (m : RecoveryManager) (e : ErrorInfo) :
    managerShouldRetry m e = true ↔
      (isRecoverable e.error = true ∧
        e.retryCount < (m.retryPolicy.maxRetries : Int)) := by
  simp [managerShouldRetry, shouldRetryPolicy, Bool.and_eq_true, decide_eq_true_iff]

theorem calculateDelay_ok_of_lt (p : RetryPolicy) {rc : Int}
    (h : rc < (p.maxRetries : Int)) :
    ∃ d, calculateDelay p rc = Except.ok d := by
  unfold calculateDelay
  by_cases h0 : rc ≤ 0
  · exact ⟨_, by rw [if_pos h0]⟩
  · have h2 : ¬((p.maxRetries : Int) < rc) := by omega
    rw [if_neg h0, if_neg h2]
    exact ⟨_, rfl⟩

theorem handleError_fst (m : RecoveryManager) (e : ErrorInfo) :
    (handleError m e).1 = recordError m e := by
  unfold handleError
  by_cases h : managerShouldRetry m e = true
  · rw [if_pos h]
    cases calculateDelay m.retryPolicy e.retryCount <;> rfl
  · rw [if_neg h]

/-- C5: `evaluateCondition` returns true for `'success'` iff the status is
COMPLETED, for `'failure'` iff FAILED, for `'any'` iff the status is one of
COMPLETED/FAILED/SKIPPED; for a predicate condition it returns the
predicate applied to the dependency result, and an exception thrown by the
predicate is caught and treated as `false` instead of propagating. -/
theorem evaluateCondition_spec {V : Type} (tid : String) (st : TaskStatus)
    (r : Option V) :
    (evaluateCondition ⟨tid, Condition.success⟩ st r = true ↔
      st = TaskStatus.completed) ∧
    (evaluateCondition ⟨tid, Condition.failure⟩ st r = true ↔
      st = TaskStatus.failed) ∧
    (evaluateCondition ⟨tid, Condition.any⟩ st r = true ↔
      (st = TaskStatus.completed ∨ st = TaskStatus.failed ∨
        st = TaskStatus.skipped)) ∧
    (∀ f : Option V → Except Unit Bool, ∀ b : Bool,
      f r = Except.ok b → evaluateCondition ⟨tid, Condition.pred f⟩ st r = b) ∧
    (∀ f : Option V → Except Unit Bool, ∀ u : Unit,
      f r = Except.error u →
        evaluateCondition ⟨tid, Condition.pred f⟩ st r = false) := by
  refine ⟨?_, ?_, ?_, ?_, ?_⟩
  · simp [evaluateCondition]
  · simp [evaluateCondition]
  · simp [evaluateCondition, or_assoc]
  · intro f b h
    simp [evaluateCondition, h]
  · intro f u h
    simp [evaluateCondition, h]

/-- Witness for C5 at concrete inputs: a succeeding predicate is passed
through, a throwing predicate yields `false`. -/
theorem evaluateCondition_spec_witness :
    ((none : Option Nat) = none) ∧
    evaluateCondition ⟨"x", Condition.pred (fun _ => Except.ok true)⟩
      TaskStatus.pending (none : Option Nat) = true ∧
    evaluateCondition ⟨"x", Condition.pred (fun _ => Except.error ())⟩
      TaskStatus.pending (none : Option Nat) = false :=
  ⟨rfl,
    (evaluateCondition_spec "x" TaskStatus.pending (none : Option Nat)).2.2.2.1
      (fun _ => Except.ok true) true rfl,
    (evaluateCondition_spec "x" TaskStatus.pending (none : Option Nat)).2.2.2.2
      (fun _ => Except.error ()) () rfl⟩

/-- C6: `handleError` always appends the error to the task's history
first; then, if the error is recoverable and `retryCount < maxRetries`,
it returns a retry action with `shouldRetry = true` and
`delay = calculateDelay(retryCount)`; otherwise a CRITICAL severity
forces manual intervention regardless of strategy, and else strategy
`continue` yields skip while `stop` and `ask` yield manual intervention,
each with `shouldRetry = false`. -/
theorem handleError_spec (m : RecoveryManager) (e : ErrorInfo) :
    getErrorHistory (handleError m e).1 e.subtaskId =
      getErrorHistory m e.subtaskId ++ [e] ∧
    (isRecoverable e.error = true →
      e.retryCount < (m.retryPolicy.maxRetries : Int) →
      ∃ d, calculateDelay m.retryPolicy e.retryCount = Except.ok d ∧
        (handleError m e).2 = Except.ok ⟨RecoveryAction.retry, true, some d⟩) ∧
    (¬(isRecoverable e.error = true ∧
        e.retryCount < (m.retryPolicy.maxRetries : Int)) →
      getSeverity e.error = ErrorSeverity.critical →
      (handleError m e).2 = Except.ok
        ⟨RecoveryAction.manualIntervention "Critical error detected", false,
          none⟩) ∧
    (¬(isRecoverable e.error = true ∧
        e.retryCount < (m.retryPolicy.maxRetries : Int)) →
      getSeverity e.error ≠ ErrorSeverity.critical →
      (m.strategy = ErrorStrategy.cont →
        (handleError m e).2 = Except.ok ⟨RecoveryAction.skip, false, none⟩) ∧
      (m.strategy = ErrorStrategy.stop →
        (handleError m e).2 = Except.ok
          ⟨RecoveryAction.manualIntervention
            "Error occurred and stop strategy is set", false, none⟩) ∧
      (m.strategy = ErrorStrategy.ask →
        (handleError m e).2 = Except.ok
          ⟨RecoveryAction.manualIntervention "User intervention requested",
            false, none⟩)) := by
  refine ⟨?_, ?_, ?_, ?_⟩
  · rw [handleError_fst]
    exact getErrorHistory_recordError_self m e
  · intro hrec hlt
    have hm : managerShouldRetry m e = true :=
      (managerShouldRetry_iff m e).mpr ⟨hrec, hlt⟩
    obtain ⟨d, hd⟩ := calculateDelay_ok_of_lt m.retryPolicy hlt
    refine ⟨d, hd, ?_⟩
    unfold handleError
    rw [if_pos hm, hd]
  · intro hn hcrit
    have hm : ¬(managerShouldRetry m e = true) :=
      fun h => hn ((managerShouldRetry_iff m e).mp h)
    unfold handleError
    rw [if_neg hm]
    simp [determineAction, hcrit]
  · intro hn hcrit
    have hm : ¬(managerShouldRetry m e = true) :=
      fun h => hn ((managerShouldRetry_iff m e).mp h)
    refine ⟨?_, ?_, ?_⟩ <;> intro hstrat <;> unfold handleError <;>
      rw [if_neg hm] <;> simp [determineAction, hcrit, hstrat]

/-- Witness for C6: a recoverable network-reset error under the retry
budget yields a retry with the computed delay. -/
theorem handleError_spec_witness :
    isRecoverable "connection ECONNRESET" = true ∧
    ((0 : Int) < ((3 : Nat) : Int)) ∧
    (∃ d, calculateDelay createDefault 0 = Except.ok d ∧
      (handleError ⟨createDefault, ErrorStrategy.cont, []⟩
        ⟨"t1", "a1", "connection ECONNRESET", 0, 0, none⟩).2 =
        Except.ok ⟨RecoveryAction.retry, true, some d⟩) :=
  ⟨by decide, by decide,
    (handleError_spec ⟨createDefault, ErrorStrategy.cont, []⟩
      ⟨"t1", "a1", "connection ECONNRESET", 0, 0, none⟩).2.1 (by decide)
      (by decide)⟩

/-- Counterexample for C7: on the default policy (maxRetries = 3) the
call `calculateDelay 4` does not return the capped backoff value
`min 16000 60000`; it throws. -/
theorem calculateDelay_counterexample :
    calculateDelay createDefault 4 =
      Except.error "Retry count 4 exceeds maximum 3" := by
  rfl

/-- C7 (amended): `calculateDelay` returns `initialDelay` when
`retryCount ≤ 0` and, for `0 < retryCount ≤ maxRetries`, the backoff
value (linear: `initialDelay*(retryCount+1)`, exponential:
`initialDelay*2^retryCount`) capped at `maxDelay`; in particular with
`initialDelay = 1000` and exponential backoff it returns 1000, 2000,
4000 for retryCount 0, 1, 2, and with `maxDelay = 5000`,
`calculateDelay 3` returns 5000. -/
theorem calculateDelay_amended (p : RetryPolicy) (rc : Int) :
    (rc ≤ 0 → calculateDelay p rc = Except.ok p.initialDelay) ∧
    (0 < rc → rc ≤ (p.maxRetries : Int) →
      calculateDelay p rc = Except.ok (min
        (match p.backoff with
          | BackoffType.linear => p.initialDelay * (rc.toNat + 1)
          | BackoffType.exponential => p.initialDelay * 2 ^ rc.toNat)
        p.maxDelay)) ∧
    calculateDelay ⟨3, 1000, 60000, BackoffType.exponential⟩ 0 =
      Except.ok 1000 ∧
    calculateDelay ⟨3, 1000, 60000, BackoffType.exponential⟩ 1 =
      Except.ok 2000 ∧
    calculateDelay ⟨3, 1000, 60000, BackoffType.exponential⟩ 2 =
      Except.ok 4000 ∧
    calculateDelay ⟨3, 1000, 5000, BackoffType.exponential⟩ 3 =
      Except.ok 5000 := by
  refine ⟨fun h => ?_, fun h1 h2 => ?_, by rfl, by rfl, by rfl, by rfl⟩
  · rw [calculateDelay, if_pos h]
  · have hn : ¬(rc ≤ 0) := by omega
    have hn2 : ¬((p.maxRetries : Int) < rc) := by omega
    rw [calculateDelay, if_neg hn, if_neg hn2]

/-- Witness for C7 at a concrete in-budget retry count. -/
theorem calculateDelay_amended_witness :
    ((0 : Int) < 2) ∧ ((2 : Int) ≤ ((3 : Nat) : Int)) ∧
    calculateDelay ⟨3, 1000, 60000, BackoffType.exponential⟩ 2 =
      Except.ok (min (1000 * 2 ^ (2 : Int).toNat) 60000) :=
  ⟨by decide, by decide,
    (calculateDelay_amended ⟨3, 1000, 60000, BackoffType.exponential⟩ 2).2.1
      (by decide) (by decide)⟩

/-- C10: for every retry policy and every retryCount strictly greater
than 0 and than maxRetries, `calculateDelay` throws (retry count exceeds
maximum) instead of returning a capped delay. -/
theorem calculateDelay_throws (p : RetryPolicy) (rc : Int) (h0 : 0 < rc)
    (hm : (p.maxRetries : Int) < rc) :
    calculateDelay p rc = Except.error
      ("Retry count " ++ toString rc ++ " exceeds maximum " ++
        toString p.maxRetries) := by
  have hn : ¬(rc ≤ 0) := by omega
  rw [calculateDelay, if_neg hn, if_pos hm]

/-- The counting record produced by folding `bumpStatus` equals
per-status occurrence counting. -/
theorem bumpStatus_foldl {V : Type} (l : List (Subtask V)) (c : StatusCounts) :
    l.foldl (fun c s => bumpStatus c s.status) c =
      { pending := c.pending + l.countP (fun s => s.status == TaskStatus.pending),
        waiting := c.waiting + l.countP (fun s => s.status == TaskStatus.waiting),
        ready := c.ready + l.countP (fun s => s.status == TaskStatus.ready),
        inProgress := c.inProgress +
          l.countP (fun s => s.status == TaskStatus.inProgress),
        completed := c.completed +
          l.countP (fun s => s.status == TaskStatus.completed),
        failed := c.failed + l.countP (fun s => s.status == TaskStatus.failed),
        skipped := c.skipped +
          l.countP (fun s => s.status == TaskStatus.skipped) } := by
  induction l generalizing c with
  | nil => simp
  | cons s rest ih =>
      rw [List.foldl_cons, ih]
      cases hst : s.status <;> simp [bumpStatus, hst, List.countP_cons] <;> omega

/-- C3: `detectCycle` is a total function into a structured result; on
the cycle `A → B → C → A` it reports `hasCycle = true` with a cycle
sequence of length 3 containing exactly `{A, B, C}`, while
`getExecutionOrder` and `getParallelLevels` fail hard with the cycle
error. -/
theorem detectCycle_cycle_spec :
    (buildGraph cycleTasks).map detectCycle =
      Except.ok { hasCycle := true, cycle := some ["A", "C", "B"] } ∧
    (["A", "C", "B"] : List String).length = 3 ∧
    (["A", "C", "B"] : List String).Perm ["A", "B", "C"] ∧
    (buildGraph cycleTasks >>= getExecutionOrder) = Except.error cycleMsg ∧
    (buildGraph cycleTasks >>= getParallelLevels) = Except.error cycleMsg := by
  refine ⟨rfl, rfl, ?_, rfl, rfl⟩
  decide

/-- Counterexample for C4: task `Y` is PENDING and its only dependency
refers to task `X`, which is in the terminal status FAILED with a
`'failure'` condition that evaluates to true — so the claim says `Y` is
ready — yet `getReadySubtasks` returns nothing (the implementation only
accepts dependencies that resolve, as raw keys, to COMPLETED tasks). -/
theorem getReadySubtasks_counterexample :
    (buildGraph c4BlockedTasks).map
      (fun g => (getReadySubtasks g).map (fun s => s.id)) = Except.ok [] ∧
    (buildGraph c4BlockedTasks).map
      (fun g => (getSubtask g "Y").map (fun s => s.status)) =
        Except.ok (some TaskStatus.pending) ∧
    (buildGraph c4BlockedTasks).map
      (fun g => (getSubtask g "X").map (fun s => s.status)) =
        Except.ok (some TaskStatus.failed) ∧
    evaluateCondition ⟨"X", Condition.failure⟩ TaskStatus.failed
      (none : Option Nat) = true :=
  ⟨rfl, rfl, rfl, rfl⟩

/-- C4 (amended): `getReadySubtasks` returns exactly the tasks whose
status is PENDING or WAITING and whose every dependency entry, used
directly as a task-id key, resolves to a task with status COMPLETED (a
conditional dependency entry never resolves and always blocks); in
particular, in the diamond scenario, after marking `A` completed it
returns exactly `{B, C}`. -/
theorem getReadySubtasks_amended :
    (∀ (V : Type) (g : DependencyGraph V) (s : Subtask V),
      s ∈ getReadySubtasks g ↔
        (s ∈ getAllSubtasks g ∧
          (s.status = TaskStatus.pending ∨ s.status = TaskStatus.waiting) ∧
          ∀ dep ∈ s.dependencies, ∃ d, getSubtaskRaw g dep = some d ∧
            d.status = TaskStatus.completed)) ∧
    (buildGraph c4Tasks >>= fun g => markCompleted g "A" 1).map
      (fun g => (getReadySubtasks g).map (fun s => s.id)) =
        Except.ok ["B", "C"] := by
  constructor
  · intro V g s
    unfold getReadySubtasks
    rw [List.mem_filter]
    constructor
    · rintro ⟨hmem, hcond⟩
      simp only [Bool.and_eq_true, Bool.or_eq_true, beq_iff_eq,
        List.all_eq_true] at hcond
      refine ⟨hmem, hcond.1, fun dep hdep => ?_⟩
      have h := hcond.2 dep hdep
      cases hr : getSubtaskRaw g dep with
      | none => simp [hr] at h
      | some d =>
          simp only [hr] at h
          exact ⟨d, rfl, by simpa using h⟩
    · rintro ⟨hmem, hst, hdeps⟩
      refine ⟨hmem, ?_⟩
      simp only [Bool.and_eq_true, Bool.or_eq_true, beq_iff_eq,
        List.all_eq_true]
      refine ⟨hst, fun dep hdep => ?_⟩
      obtain ⟨d, hd, hds⟩ := hdeps dep hdep
      rw [hd]
      simpa using hds
  · rfl

/-- Witness for C4: the readiness characterization instantiated on a
concrete graph. -/
theorem getReadySubtasks_amended_witness :
    ({ id := "B", dependencies := [Dep.plain "A"] } : Subtask Nat) ∈
        getReadySubtasks c4WitnessGraph ↔
      (({ id := "B", dependencies := [Dep.plain "A"] } : Subtask Nat) ∈
          getAllSubtasks c4WitnessGraph ∧
        (({ id := "B", dependencies := [Dep.plain "A"] } : Subtask Nat).status =
            TaskStatus.pending ∨
          ({ id := "B", dependencies := [Dep.plain "A"] } : Subtask Nat).status =
            TaskStatus.waiting) ∧
        ∀ dep ∈ ({ id := "B", dependencies := [Dep.plain "A"] } :
            Subtask Nat).dependencies,
          ∃ d, getSubtaskRaw c4WitnessGraph dep = some d ∧
            d.status = TaskStatus.completed) :=
  getReadySubtasks_amended.1 Nat c4WitnessGraph
    { id := "B", dependencies := [Dep.plain "A"] }

/-- Counterexample for C8: on a registry holding a single SKIPPED task,
the returned `completed` field is 1 although no task has status
COMPLETED. -/
theorem getExecutionSummary_counterexample :
    (buildGraph [({ id := "S", status := TaskStatus.skipped } : Subtask Nat)]).map
      (fun g => (getExecutionSummary g).completed) = Except.ok 1 ∧
    (buildGraph [({ id := "S", status := TaskStatus.skipped } : Subtask Nat)]).map
      (fun g => countStatus g TaskStatus.completed) = Except.ok 0 :=
  ⟨rfl, rfl⟩

/-- C8 (amended): `getExecutionSummary` returns the task total, the
count of COMPLETED-plus-SKIPPED tasks as `completed`, the per-status
counts for failed/inProgress/waiting/pending, and
`percentage = round(100 * (completed + skipped) / total)` (0 when the
registry is empty). -/
theorem getExecutionSummary_amended {V : Type} (g : DependencyGraph V) :
    getExecutionSummary g =
      { total := (getAllSubtasks g).length,
        completed := countStatus g TaskStatus.completed +
          countStatus g TaskStatus.skipped,
        failed := countStatus g TaskStatus.failed,
        inProgress := countStatus g TaskStatus.inProgress,
        waiting := countStatus g TaskStatus.waiting,
        pending := countStatus g TaskStatus.pending,
        percentage := if 0 < (getAllSubtasks g).length then
          roundRat ((countStatus g TaskStatus.completed +
            countStatus g TaskStatus.skipped) * 100) (getAllSubtasks g).length
        else 0 } := by
  unfold getExecutionSummary getSubtasksByStatus countStatus
  rw [bumpStatus_foldl]
  simp [getAllSubtasks]

/-- Witness for C8 on a concrete mixed-status registry. -/
theorem getExecutionSummary_amended_witness :
    getExecutionSummary
        ([{ subtask := { id := "A", status := TaskStatus.completed },
            dependents := [], indegree := 0 },
          { subtask := { id := "B", status := TaskStatus.skipped },
            dependents := [], indegree := 0 },
          { subtask := { id := "C" }, dependents := [], indegree := 0 }] :
          DependencyGraph Nat) =
      { total := 3, completed := 2, failed := 0, inProgress := 0,
        waiting := 0, pending := 1, percentage := 67 } := by
  rw [getExecutionSummary_amended]
  decide

/-- Witness for C10: the default policy throws at retry count 5. -/
theorem calculateDelay_throws_witness :
    ((0 : Int) < 5) ∧ (((3 : Nat) : Int) < 5) ∧
    calculateDelay createDefault 5 = Except.error
      ("Retry count " ++ toString (5 : Int) ++ " exceeds maximum " ++
        toString (3 : Nat)) :=
  ⟨by decide, by decide, calculateDelay_throws createDefault 5 (by decide)
    (by decide)⟩

/- ----------------------------------------------------------------- -/
/- Builder lemmas                                                    -/
/- ----------------------------------------------------------------- -/

theorem countPlainDep_nil {V : Type} (i : String) :
    countPlainDep ([] : List (Dep V)) i = 0 := rfl

theorem countPlainDep_cons {V : Type} (d : Dep V) (l : List (Dep V)) (i : String) :
    countPlainDep (d :: l) i =
      (if isPlainTo i d then 1 else 0) + countPlainDep l i := by
  unfold countPlainDep
  by_cases h : isPlainTo i d = true
  · rw [List.filter_cons_of_pos h, if_pos h]
    simp [Nat.add_comm]
  · rw [List.filter_cons_of_neg (by simpa using h), if_neg h]
    simp

theorem depUpd_nil {V : Type} (child : String) (n : Node V) :
    depUpd [] child n = n := by
  simp [depUpd, countPlainDep_nil]

theorem depUpd_cond {V : Type} (c : CondDep V) (rest : List (Dep V))
    (child : String) (n : Node V) :
    depUpd (Dep.cond c :: rest) child n = depUpd rest child n := by
  simp [depUpd, countPlainDep_cons, isPlainTo]

theorem depUpd_subtask {V : Type} (deps : List (Dep V)) (child : String)
    (n : Node V) : (depUpd deps child n).subtask = n.subtask := rfl

theorem depUpd_indegree {V : Type} (deps : List (Dep V)) (child : String)
    (n : Node V) : (depUpd deps child n).indegree = n.indegree := rfl

theorem linkDeps_eq {V : Type} (deps : List (Dep V)) (g : DependencyGraph V)
    (child : String) :
    linkDeps g deps child = g.map (depUpd deps child) := by
  induction deps generalizing g with
  | nil =>
      show g = _
      exact ((List.map_congr_left (fun n _ => depUpd_nil child n)).trans
        (List.map_id g)).symm
  | cons d rest ih =>
      cases d with
      | cond c =>
          show linkDeps g rest child = _
          rw [ih]
          exact List.map_congr_left (fun n _ => (depUpd_cond c rest child n).symm)
      | plain j =>
          show linkDeps (pushDependent g j child) rest child = _
          rw [ih]
          unfold pushDependent
          rw [List.map_map]
          apply List.map_congr_left
          intro n _
          by_cases hj : n.subtask.id = j
          · have hj' : (n.subtask.id == j) = true := by simpa using hj
            have hji : (j == n.subtask.id) = true := by simpa using hj.symm
            simp [Function.comp, depUpd, hj', countPlainDep_cons, isPlainTo,
              hji, List.replicate_succ, List.append_assoc, Nat.add_comm]
          · have hj' : (n.subtask.id == j) = false := by simpa using hj
            have hji : (j == n.subtask.id) = false := by
              simpa using fun h => hj h.symm
            simp [Function.comp, depUpd, hj', countPlainDep_cons, isPlainTo, hji]

theorem addSubtask_ok {V : Type} {g g' : DependencyGraph V} {s : Subtask V}
    (h : addSubtask g s = Except.ok g') :
    s.id ∉ idsOf g ∧
    g' = (g ++ [newNode s]).map (linkUpd s) := by
  unfold addSubtask at h
  by_cases hdup : g.any (fun n => n.subtask.id == s.id)
  · rw [if_pos hdup] at h
    cases h
  · rw [if_neg hdup] at h
    injection h with h'
    refine ⟨?_, ?_⟩
    · intro hin
      apply hdup
      obtain ⟨n, hn, hid⟩ := List.mem_map.mp hin
      exact List.any_eq_true.mpr ⟨n, hn, by simp [hid]⟩
    · rw [← h', linkDeps_eq]
      rfl

theorem linkUpd_subtask {V : Type} (s : Subtask V) (n : Node V) :
    (linkUpd s n).subtask = n.subtask := rfl

theorem linkUpd_indegree {V : Type} (s : Subtask V) (n : Node V) :
    (linkUpd s n).indegree = n.indegree := rfl

theorem getAllSubtasks_addSubtask {V : Type} {g g' : DependencyGraph V}
    {s : Subtask V} (h : addSubtask g s = Except.ok g') :
    getAllSubtasks g' = getAllSubtasks g ++ [s] := by
  obtain ⟨-, rfl⟩ := addSubtask_ok h
  show ((g ++ [newNode s]).map (linkUpd s)).map
    (fun n => n.subtask) = _
  rw [List.map_map]
  show (g ++ [newNode s]).map (fun n => n.subtask) = _
  rw [List.map_append]
  rfl

theorem idsOf_addSubtask {V : Type} {g g' : DependencyGraph V} {s : Subtask V}
    (h : addSubtask g s = Except.ok g') : idsOf g' = idsOf g ++ [s.id] := by
  obtain ⟨-, rfl⟩ := addSubtask_ok h
  show ((g ++ [newNode s]).map (linkUpd s)).map
    (fun n => n.subtask.id) = _
  rw [List.map_map]
  show (g ++ [newNode s]).map (fun n => n.subtask.id) = _
  rw [List.map_append]
  rfl

theorem buildAux_subtasks {V : Type} :
    ∀ (ts : List (Subtask V)) (g₀ g : DependencyGraph V),
      ts.foldlM addSubtask g₀ = Except.ok g →
      getAllSubtasks g = getAllSubtasks g₀ ++ ts := by
  intro ts
  induction ts with
  | nil =>
      intro g₀ g h
      simp only [List.foldlM_nil] at h
      cases h
      simp
  | cons t rest ih =>
      intro g₀ g h
      rw [List.foldlM_cons] at h
      cases ha : addSubtask g₀ t with
      | error e =>
          rw [ha] at h
          cases h
      | ok g₁ =>
          rw [ha] at h
          have h2 := ih g₁ g h
          rw [h2, getAllSubtasks_addSubtask ha]
          simp

theorem buildGraph_subtasks {V : Type} {ts : List (Subtask V)}
    {g : DependencyGraph V} (h : buildGraph ts = Except.ok g) :
    getAllSubtasks g = ts := by
  have := buildAux_subtasks ts [] g h
  simpa [getAllSubtasks] using this

theorem linkUpd_dependents {V : Type} (s : Subtask V) (n : Node V) :
    (linkUpd s n).dependents = n.dependents ++
      List.replicate (countPlainDep s.dependencies n.subtask.id) s.id := rfl

theorem plainIn_mono {V : Type} {S T : List String} (hST : ∀ x ∈ S, x ∈ T)
    {d : Dep V} (h : plainIn S d = true) : plainIn T d = true := by
  cases d with
  | plain i =>
      simp only [plainIn] at h ⊢
      have : i ∈ S := by simpa using h
      simpa using hST i this
  | cond c => simp [plainIn] at h

theorem plain_mem_of_countPlainDep_pos {V : Type} {l : List (Dep V)}
    {i : String} (h : 0 < countPlainDep l i) : Dep.plain i ∈ l := by
  unfold countPlainDep at h
  have hne : (l.filter (isPlainTo i)) ≠ [] := by
    intro he
    rw [he] at h
    cases h
  obtain ⟨d, hd⟩ := List.exists_mem_of_ne_nil _ hne
  obtain ⟨hdl, hpd⟩ := List.mem_filter.mp hd
  cases d with
  | plain j =>
      have : j = i := by simpa [isPlainTo] using hpd
      exact this ▸ hdl
  | cond c => simp [isPlainTo] at hpd

theorem addSubtask_inv {V : Type} {g g' : DependencyGraph V} {s : Subtask V}
    (h : addSubtask g s = Except.ok g') (inv : BuiltInv g) : BuiltInv g' := by
  obtain ⟨hfresh, hg'⟩ := addSubtask_ok h
  have hids : idsOf g' = idsOf g ++ [s.id] := idsOf_addSubtask h
  refine ⟨?_, ?_, ?_, ?_⟩
  · rw [hids, List.nodup_append]
    refine ⟨inv.nodup, List.nodup_singleton _, ?_⟩
    intro x hx hx2
    rw [List.mem_singleton] at hx2
    exact hfresh (hx2 ▸ hx)
  · intro n' hn'
    rw [hg'] at hn'
    obtain ⟨n₀, hn₀, rfl⟩ := List.mem_map.mp hn'
    show n₀.indegree = n₀.subtask.dependencies.length
    rcases List.mem_append.mp hn₀ with h0 | h0
    · exact inv.indeg n₀ h0
    · rw [List.mem_singleton] at h0
      subst h0
      rfl
  · intro n' hn' m' hm'
    rw [hg'] at hn'
    rw [hg'] at hm'
    obtain ⟨n₀, hn₀, rfl⟩ := List.mem_map.mp hn'
    obtain ⟨m₀, hm₀, rfl⟩ := List.mem_map.mp hm'
    show (linkUpd s n₀).dependents.count m₀.subtask.id ≤
      countPlainDep m₀.subtask.dependencies n₀.subtask.id
    rw [linkUpd_dependents, List.count_append, List.count_replicate]
    rcases List.mem_append.mp hm₀ with hm | hm
    · have hne : ¬((s.id == m₀.subtask.id) = true) := by
        simp only [beq_iff_eq]
        intro he
        exact hfresh (he ▸ List.mem_map.mpr ⟨m₀, hm, rfl⟩)
      rw [if_neg hne]
      rcases List.mem_append.mp hn₀ with hn | hn
      · simpa using inv.depBound n₀ hn m₀ hm
      · rw [List.mem_singleton] at hn
        subst hn
        simp [newNode]
    · rw [List.mem_singleton] at hm
      subst hm
      rw [if_pos (by simp [newNode])]
      rcases List.mem_append.mp hn₀ with hn | hn
      · have h0 : n₀.dependents.count s.id = 0 := by
          rw [List.count_eq_zero]
          intro hmem
          exact hfresh (inv.depClosed n₀ hn s.id hmem)
        show n₀.dependents.count (newNode s).subtask.id +
          countPlainDep s.dependencies n₀.subtask.id ≤ _
        have : (newNode s).subtask.id = s.id := rfl
        rw [this, h0]
        simp [newNode]
      · rw [List.mem_singleton] at hn
        subst hn
        simp [newNode]
  · intro n' hn' x hx
    rw [hg'] at hn'
    obtain ⟨n₀, hn₀, rfl⟩ := List.mem_map.mp hn'
    rw [linkUpd_dependents] at hx
    rw [hids]
    rcases List.mem_append.mp hx with hx | hx
    · rcases List.mem_append.mp hn₀ with hn | hn
      · exact List.mem_append_left _ (inv.depClosed n₀ hn x hx)
      · rw [List.mem_singleton] at hn
        subst hn
        simp [newNode] at hx
    · have hxe : x = s.id := List.eq_of_mem_replicate hx
      subst hxe
      exact List.mem_append_right _ (by simp)

theorem addSubtask_strong {V : Type} {g g' : DependencyGraph V} {s : Subtask V}
    (h : addSubtask g s = Except.ok g') (inv : BuiltInv g) (str : StrongInv g)
    (hdeps : s.dependencies.all (plainIn (idsOf g)) = true) : StrongInv g' := by
  obtain ⟨hfresh, hg'⟩ := addSubtask_ok h
  have hids : idsOf g' = idsOf g ++ [s.id] := idsOf_addSubtask h
  have hsub : ∀ x ∈ idsOf g, x ∈ idsOf g' := by
    intro x hx
    rw [hids]
    exact List.mem_append_left _ hx
  refine ⟨?_, ?_⟩
  · intro n' hn' m' hm'
    rw [hg'] at hn'
    rw [hg'] at hm'
    obtain ⟨n₀, hn₀, rfl⟩ := List.mem_map.mp hn'
    obtain ⟨m₀, hm₀, rfl⟩ := List.mem_map.mp hm'
    show (linkUpd s n₀).dependents.count m₀.subtask.id =
      countPlainDep m₀.subtask.dependencies n₀.subtask.id
    rw [linkUpd_dependents, List.count_append, List.count_replicate]
    rcases List.mem_append.mp hm₀ with hm | hm
    · have hne : ¬((s.id == m₀.subtask.id) = true) := by
        simp only [beq_iff_eq]
        intro he
        exact hfresh (he ▸ List.mem_map.mpr ⟨m₀, hm, rfl⟩)
      rw [if_neg hne]
      rcases List.mem_append.mp hn₀ with hn | hn
      · simpa using str.depExact n₀ hn m₀ hm
      · rw [List.mem_singleton] at hn
        subst hn
        show List.count m₀.subtask.id [] + _ = _
        rw [List.count_nil]
        by_cases hz : 0 < countPlainDep m₀.subtask.dependencies
            (newNode s).subtask.id
        · exfalso
          have hmem := plain_mem_of_countPlainDep_pos hz
          have := str.allPlain m₀ hm _ hmem
          have : (newNode s).subtask.id ∈ idsOf g := by
            simpa [plainIn] using this
          exact hfresh this
        · omega
    · rw [List.mem_singleton] at hm
      subst hm
      rw [if_pos (by simp [newNode])]
      rcases List.mem_append.mp hn₀ with hn | hn
      · have h0 : n₀.dependents.count s.id = 0 := by
          rw [List.count_eq_zero]
          intro hmem
          exact hfresh (inv.depClosed n₀ hn s.id hmem)
        show n₀.dependents.count (newNode s).subtask.id +
          countPlainDep s.dependencies n₀.subtask.id = _
        have he : (newNode s).subtask.id = s.id := rfl
        rw [he, h0]
        simp [newNode]
      · rw [List.mem_singleton] at hn
        subst hn
        simp [newNode]
  · intro m' hm' dep hdep
    rw [hg'] at hm'
    obtain ⟨m₀, hm₀, rfl⟩ := List.mem_map.mp hm'
    have hdep' : dep ∈ m₀.subtask.dependencies := hdep
    rcases List.mem_append.mp hm₀ with hm | hm
    · exact plainIn_mono hsub (str.allPlain m₀ hm dep hdep')
    · rw [List.mem_singleton] at hm
      subst hm
      have : dep ∈ s.dependencies := hdep'
      exact plainIn_mono hsub (List.all_eq_true.mp hdeps dep this)

theorem buildAux_inv {V : Type} :
    ∀ (ts : List (Subtask V)) (g₀ g : DependencyGraph V),
      ts.foldlM addSubtask g₀ = Except.ok g → BuiltInv g₀ → BuiltInv g := by
  intro ts
  induction ts with
  | nil =>
      intro g₀ g h inv
      simp only [List.foldlM_nil] at h
      cases h
      exact inv
  | cons t rest ih =>
      intro g₀ g h inv
      rw [List.foldlM_cons] at h
      cases ha : addSubtask g₀ t with
      | error e =>
          rw [ha] at h
          cases h
      | ok g₁ =>
          rw [ha] at h
          exact ih g₁ g h (addSubtask_inv ha inv)

theorem buildAux_strong {V : Type} :
    ∀ (ts : List (Subtask V)) (g₀ g : DependencyGraph V),
      ts.foldlM addSubtask g₀ = Except.ok g → BuiltInv g₀ → StrongInv g₀ →
      depOrdered (idsOf g₀) ts = true → StrongInv g := by
  intro ts
  induction ts with
  | nil =>
      intro g₀ g h inv str _
      simp only [List.foldlM_nil] at h
      cases h
      exact str
  | cons t rest ih =>
      intro g₀ g h inv str hord
      rw [List.foldlM_cons] at h
      simp only [depOrdered, Bool.and_eq_true] at hord
      cases ha : addSubtask g₀ t with
      | error e =>
          rw [ha] at h
          cases h
      | ok g₁ =>
          rw [ha] at h
          have hids : idsOf g₁ = idsOf g₀ ++ [t.id] := idsOf_addSubtask ha
          exact ih g₁ g h (addSubtask_inv ha inv)
            (addSubtask_strong ha inv str hord.1) (by rw [hids]; exact hord.2)

theorem emptyBuiltInv {V : Type} : BuiltInv ([] : DependencyGraph V) := by
  refine ⟨?_, ?_, ?_, ?_⟩ <;> simp [idsOf]

theorem emptyStrongInv {V : Type} : StrongInv ([] : DependencyGraph V) := by
  refine ⟨?_, ?_⟩ <;> simp

theorem buildGraph_inv {V : Type} {ts : List (Subtask V)} {g : DependencyGraph V}
    (h : buildGraph ts = Except.ok g) : BuiltInv g :=
  buildAux_inv ts [] g h emptyBuiltInv

theorem buildGraph_strong {V : Type} {ts : List (Subtask V)}
    {g : DependencyGraph V} (h : buildGraph ts = Except.ok g)
    (hord : depOrdered [] ts = true) : StrongInv g :=
  buildAux_strong ts [] g h emptyBuiltInv emptyStrongInv (by simpa [idsOf])

theorem depOrdered_get {V : Type} :
    ∀ (ts : List (Subtask V)) (seen : List String),
      depOrdered seen ts = true → ∀ (i : Nat) (hi : i < ts.length),
        ∀ dep ∈ (ts.get ⟨i, hi⟩).dependencies,
          plainIn (seen ++ (ts.take i).map (fun t => t.id)) dep = true := by
  intro ts
  induction ts with
  | nil =>
      intro seen _ i hi
      simp at hi
  | cons t rest ih =>
      intro seen h i hi dep hdep
      simp only [depOrdered, Bool.and_eq_true] at h
      cases i with
      | zero =>
          have := List.all_eq_true.mp h.1 dep hdep
          simpa using this
      | succ i' =>
          have hi' : i' < rest.length := by simpa using hi
          have := ih (seen ++ [t.id]) h.2 i' hi' dep hdep
          simpa [List.take_succ_cons, List.append_assoc] using this

/- ----------------------------------------------------------------- -/
/- Counting lemmas for the sort                                      -/
/- ----------------------------------------------------------------- -/

theorem sum_map_add {α : Type} (S : List α) (f g : α → Nat) :
    (S.map (fun e => f e + g e)).sum = (S.map f).sum + (S.map g).sum := by
  induction S with
  | nil => rfl
  | cons a rest ih =>
      simp only [List.map_cons, List.sum_cons, ih]
      omega

theorem sum_count_single (S : List String) (j : String) :
    S.Nodup →
      (S.map (fun e => if (j == e) = true then 1 else 0)).sum =
        if j ∈ S then 1 else 0 := by
  induction S with
  | nil => intro _; simp
  | cons a rest ih =>
      intro hS
      obtain ⟨ha, hrest⟩ := List.nodup_cons.mp hS
      rw [List.map_cons, List.sum_cons, ih hrest]
      by_cases hja : j = a
      · subst hja
        have hnot : j ∉ rest := ha
        simp [hnot]
      · have : ¬((j == a) = true) := by simpa using hja
        simp [this, hja]

theorem sum_countPlainDep {V : Type} (S : List String) (l : List (Dep V)) :
    S.Nodup →
      (S.map (fun e => countPlainDep l e)).sum =
        (l.filter (plainIn S)).length := by
  intro hS
  induction l with
  | nil =>
      simp [countPlainDep_nil]
  | cons d rest ih =>
      have h1 : S.map (fun e => countPlainDep (d :: rest) e) =
          S.map (fun e => (if isPlainTo e d then 1 else 0) + countPlainDep rest e) :=
        List.map_congr_left (fun e _ => countPlainDep_cons d rest e)
      rw [h1, sum_map_add, ih]
      cases d with
      | plain j =>
          have h2 : (S.map (fun e =>
                if isPlainTo e (Dep.plain j : Dep V) then 1 else 0)) =
              S.map (fun e => if (j == e) = true then 1 else 0) :=
            List.map_congr_left (fun e _ => by simp [isPlainTo])
          rw [h2, sum_count_single S j hS]
          by_cases hj : j ∈ S
          · rw [if_pos hj, List.filter_cons_of_pos (by simpa [plainIn] using hj)]
            simp [Nat.add_comm]
          · rw [if_neg hj, List.filter_cons_of_neg (by simpa [plainIn] using hj)]
            simp
      | cond c =>
          have h2 : (S.map (fun e =>
                if isPlainTo e (Dep.cond c : Dep V) then 1 else 0)) =
              S.map (fun _ => 0) :=
            List.map_congr_left (fun e _ => by simp [isPlainTo])
          rw [h2, List.filter_cons_of_neg (by simp [plainIn])]
          simp

theorem length_filter_not_add {α : Type} (p : α → Bool) (l : List α) :
    (l.filter (fun x => !(p x))).length + (l.filter p).length = l.length := by
  induction l with
  | nil => rfl
  | cons a rest ih =>
      by_cases h : p a = true <;> simp [List.filter_cons, h] <;> omega

theorem findNode_some {V : Type} {g : DependencyGraph V} {e : String}
    {m : Node V} (h : findNode g e = some m) : m ∈ g ∧ m.subtask.id = e := by
  unfold findNode at h
  refine ⟨List.mem_of_find?_eq_some h, ?_⟩
  have := List.find?_some h
  simpa using this

theorem findNode_isSome_of_mem {V : Type} {g : DependencyGraph V} {n : Node V}
    (hn : n ∈ g) :
    ∃ m, findNode g n.subtask.id = some m ∧ m ∈ g ∧
      m.subtask.id = n.subtask.id := by
  have hs : (findNode g n.subtask.id).isSome := by
    unfold findNode
    rw [List.find?_isSome]
    exact ⟨n, hn, by simp⟩
  obtain ⟨m, hm⟩ := Option.isSome_iff_exists.mp hs
  exact ⟨m, hm, (findNode_some hm).1, (findNode_some hm).2⟩

theorem findNode_of_mem_nodup {V : Type} :
    ∀ {g : DependencyGraph V}, (idsOf g).Nodup → ∀ {n : Node V}, n ∈ g →
      findNode g n.subtask.id = some n := by
  intro g
  induction g with
  | nil =>
      intro _ n hn
      cases hn
  | cons m rest ih =>
      intro hnodup n hn
      have hnodup' : m.subtask.id ∉ idsOf rest ∧ (idsOf rest).Nodup := by
        have : (m.subtask.id :: idsOf rest).Nodup := by simpa [idsOf] using hnodup
        exact List.nodup_cons.mp this
      rcases List.mem_cons.mp hn with rfl | hn'
      · simp [findNode, List.find?]
      · have hne : (m.subtask.id == n.subtask.id) = false := by
          simp only [beq_eq_false_iff_ne, ne_eq]
          intro he
          exact hnodup'.1 (he ▸ List.mem_map.mpr ⟨n, hn', rfl⟩)
        have hstep : findNode (m :: rest) n.subtask.id =
            findNode rest n.subtask.id := by
          simp [findNode, List.find?, hne]
        rw [hstep]
        exact ih hnodup'.2 hn'

theorem decSum_nil {V : Type} (g : DependencyGraph V) (tid : String) :
    decSum g [] tid = 0 := rfl

theorem decSum_cons {V : Type} (g : DependencyGraph V) (e : String)
    (S : List String) (tid : String) :
    decSum g (e :: S) tid = decOf g e tid + decSum g S tid := by
  simp [decSum]

theorem decSum_append {V : Type} (g : DependencyGraph V) (S₁ S₂ : List String)
    (tid : String) :
    decSum g (S₁ ++ S₂) tid = decSum g S₁ tid + decSum g S₂ tid := by
  simp [decSum]

theorem decOf_le {V : Type} {g : DependencyGraph V} (inv : BuiltInv g)
    {t : Node V} (ht : t ∈ g) (e : String) :
    decOf g e t.subtask.id ≤ countPlainDep t.subtask.dependencies e := by
  unfold decOf
  cases hf : findNode g e with
  | none => simp
  | some m =>
      obtain ⟨hm, hid⟩ := findNode_some hf
      have := inv.depBound m hm t ht
      rw [hid] at this
      exact this

theorem decOf_eq {V : Type} {g : DependencyGraph V} (str : StrongInv g)
    {t : Node V} (ht : t ∈ g) {e : String} (he : e ∈ idsOf g) :
    decOf g e t.subtask.id = countPlainDep t.subtask.dependencies e := by
  obtain ⟨n₀, hn₀, rfl⟩ := List.mem_map.mp he
  obtain ⟨m, hfm, hm, hid⟩ := findNode_isSome_of_mem hn₀
  unfold decOf
  rw [hfm]
  show m.dependents.count t.subtask.id = _
  rw [str.depExact m hm t ht, hid]

theorem decSum_le_filter {V : Type} {g : DependencyGraph V} (inv : BuiltInv g)
    {t : Node V} (ht : t ∈ g) {S : List String} (hS : S.Nodup) :
    decSum g S t.subtask.id ≤
      (t.subtask.dependencies.filter (plainIn S)).length := by
  unfold decSum
  calc (S.map (fun e => decOf g e t.subtask.id)).sum
      ≤ (S.map (fun e => countPlainDep t.subtask.dependencies e)).sum :=
        List.sum_le_sum (fun e _ => decOf_le inv ht e)
    _ = _ := sum_countPlainDep S _ hS

theorem decSum_eq_filter {V : Type} {g : DependencyGraph V} (str : StrongInv g)
    {t : Node V} (ht : t ∈ g) {S : List String} (hS : S.Nodup)
    (hSin : ∀ x ∈ S, x ∈ idsOf g) :
    decSum g S t.subtask.id =
      (t.subtask.dependencies.filter (plainIn S)).length := by
  unfold decSum
  have h1 : S.map (fun e => decOf g e t.subtask.id) =
      S.map (fun e => countPlainDep t.subtask.dependencies e) :=
    List.map_congr_left (fun e he => decOf_eq str ht (hSin e he))
  rw [h1, sum_countPlainDep S _ hS]

theorem remCount_add_filter {V : Type} (s : Subtask V) (S : List String) :
    remCount s S + (s.dependencies.filter (plainIn S)).length =
      s.dependencies.length := by
  unfold remCount
  exact length_filter_not_add (plainIn S) s.dependencies

theorem remCount_zero_iff {V : Type} (s : Subtask V) (S : List String) :
    remCount s S = 0 ↔ ∀ dep ∈ s.dependencies, plainIn S dep = true := by
  unfold remCount
  rw [List.length_eq_zero]
  constructor
  · intro h dep hdep
    by_contra hc
    have : dep ∈ s.dependencies.filter (fun d => !(plainIn S d)) :=
      List.mem_filter.mpr ⟨hdep, by simpa using hc⟩
    rw [h] at this
    cases this
  · intro h
    rw [List.filter_eq_nil_iff]
    intro dep hdep
    simp [h dep hdep]

/- ----------------------------------------------------------------- -/
/- The level-processing characterization                             -/
/- ----------------------------------------------------------------- -/

theorem keys_aset {α : Type} (l : List (String × α)) (k : String) (v : α) :
    (aset l k v).map (fun p => p.1) = l.map (fun p => p.1) := by
  unfold aset
  rw [List.map_map]
  apply List.map_congr_left
  intro p _
  by_cases h : p.1 = k <;> simp [Function.comp, h]

theorem processDependents_nil (ind : IndMap) (q : List String) :
    processDependents ind q [] = (ind, q) := rfl

theorem processDependents_cons (ind : IndMap) (q : List String) (d : String)
    (rest : List String) :
    processDependents ind q (d :: rest) =
      match alookup ind d with
      | none => processDependents ind q rest
      | some c => processDependents (aset ind d (c - 1))
          (if c - 1 = 0 then q ++ [d] else q) rest := by
  cases h : alookup ind d <;> simp [processDependents, List.foldl_cons, h]

theorem processDependents_spec :
    ∀ (dl : List String) (ind : IndMap) (q : List String),
      ((processDependents ind q dl).1.map (fun p => p.1) =
        ind.map (fun p => p.1)) ∧
      (∀ k, alookup (processDependents ind q dl).1 k =
        (alookup ind k).map (fun v => v - (dl.count k : Int))) ∧
      ∃ app, (processDependents ind q dl).2 = q ++ app ∧ app.Nodup ∧
        (∀ x, x ∈ app ↔ ∃ v, alookup ind x = some v ∧ 1 ≤ v ∧
          v - (dl.count x : Int) ≤ 0) := by
  intro dl
  induction dl with
  | nil =>
      intro ind q
      simp only [processDependents_nil]
      refine ⟨by simp, ?_, [], by simp, by simp, ?_⟩
      · intro k
        cases alookup ind k <;> simp
      · intro x
        simp only [List.not_mem_nil, false_iff]
        rintro ⟨v, hv, h1, h2⟩
        simp only [List.count_nil] at h2
        omega
  | cons d rest ih =>
      intro ind q
      rw [processDependents_cons]
      cases hd : alookup ind d with
      | none =>
          obtain ⟨K, L, app, happ, hnd, hchar⟩ := ih ind q
          refine ⟨K, ?_, app, happ, hnd, ?_⟩
          · intro k
            rw [L k]
            by_cases hk : k = d
            · subst hk
              rw [hd]
              simp
            · have hkd : (k == d) = false := by simpa using hk
              have hdk : ¬(d = k) := fun h => hk h.symm
              rw [List.count_cons]
              simp [hkd, hk, hdk]
          · intro x
            rw [hchar x]
            by_cases hx : x = d
            · subst hx
              constructor <;> rintro ⟨v, hv, h1, h2⟩ <;> rw [hd] at hv <;>
                cases hv
            · have hxd : (x == d) = false := by simpa using hx
              have hdx : ¬(d = x) := fun h => hx h.symm
              rw [List.count_cons]
              simp [hxd, hx, hdx]
      | some c =>
          obtain ⟨K, L, app, happ, hnd, hchar⟩ :=
            ih (aset ind d (c - 1)) (if c - 1 = 0 then q ++ [d] else q)
          have hlook : alookup (aset ind d (c - 1)) d = some (c - 1) := by
            rw [alookup_aset, if_pos rfl, hd]
            rfl
          refine ⟨?_, ?_, ?_⟩
          · rw [K, keys_aset]
          · intro k
            rw [L k, alookup_aset]
            by_cases hk : k = d
            · subst hk
              rw [if_pos rfl, hd, List.count_cons]
              have hcc : (k == k) = true := by simp
              simp only [hcc, if_true, Option.map_some']
              congr 1
              push_cast
              omega
            · rw [if_neg hk]
              have hkd : (k == d) = false := by simpa using hk
              have hdk : ¬(d = k) := fun h => hk h.symm
              rw [List.count_cons]
              simp [hkd, hk, hdk]
          · refine ⟨(if c - 1 = 0 then [d] else []) ++ app, ?_, ?_, ?_⟩
            · rw [happ]
              by_cases hc : c - 1 = 0 <;> simp [hc, List.append_assoc]
            · by_cases hc : c - 1 = 0
              · rw [if_pos hc]
                have hdapp : d ∉ app := by
                  intro hmem
                  obtain ⟨v, hv, h1, h2⟩ := (hchar d).mp hmem
                  rw [hlook] at hv
                  injection hv with hv
                  omega
                simp only [List.singleton_append, List.nodup_cons]
                exact ⟨hdapp, hnd⟩
              · rw [if_neg hc]
                simpa using hnd
            · intro x
              by_cases hx : x = d
              · subst hx
                have hL : x ∈ (if c - 1 = 0 then [x] else []) ++ app ↔
                    (c - 1 = 0 ∨ x ∈ app) := by
                  by_cases hc : c - 1 = 0 <;> simp [hc]
                rw [hL, hchar x, hlook]
                rw [List.count_cons]
                have hcc : (x == x) = true := by simp
                simp only [hcc, if_true, hd]
                constructor
                · rintro (hc | ⟨v, hv, h1, h2⟩)
                  · exact ⟨c, rfl, by omega, by push_cast; omega⟩
                  · injection hv with hv
                    subst hv
                    exact ⟨c, rfl, by omega, by push_cast; omega⟩
                · rintro ⟨v, hv, h1, h2⟩
                  injection hv with hv
                  subst hv
                  by_cases hc : c - 1 = 0
                  · exact Or.inl hc
                  · refine Or.inr ⟨c - 1, rfl, by omega, by push_cast at h2 ⊢; omega⟩
              · have hxd : (x == d) = false := by simpa using hx
                have hL : x ∈ (if c - 1 = 0 then [d] else []) ++ app ↔ x ∈ app := by
                  by_cases hc : c - 1 = 0 <;> simp [hc, hx]
                rw [hL, hchar x, alookup_aset, if_neg hx]
                have hdx : ¬(d = x) := fun h => hx h.symm
                rw [List.count_cons]
                simp [hxd, hx, hdx]

theorem processLevel_eq_levelFold {V : Type} (g : DependencyGraph V)
    (ind : IndMap) (level : List String) :
    processLevel g ind level = levelFold g (ind, []) level := rfl

theorem levelFold_cons {V : Type} (g : DependencyGraph V) (ind : IndMap)
    (q : List String) (e : String) (rest : List String) :
    levelFold g (ind, q) (e :: rest) =
      match findNode g e with
      | none => levelFold g (ind, q) rest
      | some node => levelFold g (processDependents ind q node.dependents) rest := by
  cases h : findNode g e <;> simp [levelFold, List.foldl_cons, h]

theorem levelFold_spec {V : Type} (g : DependencyGraph V) :
    ∀ (level : List String) (ind : IndMap) (q : List String),
      ((levelFold g (ind, q) level).1.map (fun p => p.1) =
        ind.map (fun p => p.1)) ∧
      (∀ k, alookup (levelFold g (ind, q) level).1 k =
        (alookup ind k).map (fun v => v - (decSum g level k : Int))) ∧
      ∃ app, (levelFold g (ind, q) level).2 = q ++ app ∧ app.Nodup ∧
        (∀ x, x ∈ app ↔ ∃ v, alookup ind x = some v ∧ 1 ≤ v ∧
          v - (decSum g level x : Int) ≤ 0) := by
  intro level
  induction level with
  | nil =>
      intro ind q
      refine ⟨rfl, ?_, [], by simp [levelFold], by simp, ?_⟩
      · intro k
        show alookup ind k = _
        cases alookup ind k <;> simp [decSum_nil]
      · intro x
        simp only [List.not_mem_nil, false_iff]
        rintro ⟨v, hv, h1, h2⟩
        rw [decSum_nil] at h2
        omega
  | cons e rest ih =>
      intro ind q
      rw [levelFold_cons]
      cases hf : findNode g e with
      | none =>
          have hdec : ∀ k, decOf g e k = 0 := by
            intro k
            unfold decOf
            rw [hf]
          obtain ⟨K, L, app, happ, hnd, hchar⟩ := ih ind q
          refine ⟨K, ?_, app, happ, hnd, ?_⟩
          · intro k
            rw [L k, decSum_cons, hdec k]
            simp
          · intro x
            rw [hchar x, decSum_cons, hdec x]
            simp
      | some node =>
          have hdec : ∀ k, decOf g e k = node.dependents.count k := by
            intro k
            unfold decOf
            rw [hf]
          obtain ⟨K₀, L₀, app₀, happ₀, hnd₀, hchar₀⟩ :=
            processDependents_spec node.dependents ind q
          obtain ⟨K₁, L₁, app₁, happ₁, hnd₁, hchar₁⟩ :=
            ih (processDependents ind q node.dependents).1
              (processDependents ind q node.dependents).2
          refine ⟨?_, ?_, ?_⟩
          · rw [K₁, K₀]
          · intro k
            rw [L₁ k, L₀ k, decSum_cons, hdec k]
            cases alookup ind k with
            | none => simp
            | some v =>
                simp only [Option.map_some', Option.some.injEq]
                push_cast
                ring
          · refine ⟨app₀ ++ app₁, ?_, ?_, ?_⟩
            · rw [happ₁, happ₀, List.append_assoc]
            · rw [List.nodup_append]
              refine ⟨hnd₀, hnd₁, ?_⟩
              intro x hx0 hx1
              obtain ⟨v, hv, h1, h2⟩ := (hchar₀ x).mp hx0
              obtain ⟨w, hw, h3, h4⟩ := (hchar₁ x).mp hx1
              rw [L₀ x, hv] at hw
              simp only [Option.map_some'] at hw
              injection hw with hw
              omega
            · intro x
              rw [List.mem_append, hchar₀ x, hchar₁ x, L₀ x, decSum_cons,
                hdec x]
              cases hv : alookup ind x with
              | none => simp
              | some v =>
                  simp only [Option.map_some', Option.some.injEq]
                  constructor
                  · rintro (⟨w, hw, h1, h2⟩ | ⟨w, hw, h3, h4⟩)
                    · cases hw
                      exact ⟨v, rfl, by omega, by push_cast; omega⟩
                    · refine ⟨v, rfl, by omega, ?_⟩
                      subst hw
                      push_cast at h4 ⊢
                      omega
                  · rintro ⟨w, hw, h1, h2⟩
                    cases hw
                    push_cast at h2
                    by_cases hc : v - (node.dependents.count x : Int) ≤ 0
                    · exact Or.inl ⟨v, rfl, by omega, by omega⟩
                    · exact Or.inr ⟨v - (node.dependents.count x : Int), rfl,
                        by omega, by omega⟩

/- ----------------------------------------------------------------- -/
/- The Kahn loop invariant                                           -/
/- ----------------------------------------------------------------- -/

theorem alookup_some_key {α : Type} {l : List (String × α)} {k : String}
    {v : α} (h : alookup l k = some v) : k ∈ l.map (fun p => p.1) := by
  unfold alookup at h
  cases hf : l.find? (fun p => p.1 == k) with
  | none =>
      rw [hf] at h
      cases h
  | some p =>
      have hm := List.mem_of_find?_eq_some hf
      have hp : p.1 = k := by simpa using List.find?_some hf
      exact hp ▸ List.mem_map.mpr ⟨p, hm, rfl⟩

theorem plainIn_target_mem {V : Type} {S : List String} {dep : Dep V}
    (h : plainIn S dep = true) : Dep.target dep ∈ S := by
  cases dep with
  | plain i => simpa [plainIn, Dep.target] using h
  | cond c => simp [plainIn] at h

theorem nodup_length_le {l₁ l₂ : List String} (h₁ : l₁.Nodup) (hsub : l₁ ⊆ l₂) :
    l₁.length ≤ l₂.length :=
  (List.subperm_of_subset h₁ hsub).length_le

theorem loopInv_step {V : Type} {g : DependencyGraph V} (inv : BuiltInv g)
    {queue : List String} {ind : IndMap} {order : List String}
    (LI : LoopInv g queue ind order) :
    LoopInv g (processLevel g ind queue).2 (processLevel g ind queue).1
      (order ++ queue) ∧ SameLevelOK g queue := by
  obtain ⟨K, L, app, happ, hnd, hchar⟩ := levelFold_spec g queue ind []
  rw [processLevel_eq_levelFold]
  have happ' : (levelFold g (ind, []) queue).2 = app := by
    rw [happ]
    rfl
  have hqnodup : queue.Nodup := (List.nodup_append.mp LI.nodupOQ).2.1
  have honodup : order.Nodup := (List.nodup_append.mp LI.nodupOQ).1
  have hodisj : order.Disjoint queue := (List.nodup_append.mp LI.nodupOQ).2.2
  have hqsub : ∀ x ∈ queue, x ∈ idsOf g := fun x hx =>
    LI.subOQ x (List.mem_append_right _ hx)
  have hosub : ∀ x ∈ order, x ∈ idsOf g := fun x hx =>
    LI.subOQ x (List.mem_append_left _ hx)
  have hoqsub : ∀ x ∈ order ++ queue, x ∈ idsOf g := LI.subOQ
  -- a node-level version of the app characterization
  have hcharN : ∀ n ∈ g, (n.subtask.id ∈ app ↔
      1 ≤ (n.subtask.dependencies.length : Int) - decSum g order n.subtask.id ∧
      (n.subtask.dependencies.length : Int) -
        decSum g (order ++ queue) n.subtask.id ≤ 0) := by
    intro n hn
    rw [hchar n.subtask.id]
    constructor
    · rintro ⟨v, hv, h1, h2⟩
      rw [LI.counter n hn] at hv
      injection hv with hv
      subst hv
      rw [decSum_append]
      exact ⟨h1, by omega⟩
    · rintro ⟨h1, h2⟩
      rw [decSum_append] at h2
      exact ⟨_, LI.counter n hn, h1, by omega⟩
  -- membership of app implies being a graph id
  have happids : ∀ x ∈ app, x ∈ idsOf g := by
    intro x hx
    obtain ⟨v, hv, -, -⟩ := (hchar x).mp hx
    have := alookup_some_key hv
    rw [LI.keys] at this
    exact this
  -- app is disjoint from the already-emitted ids
  have happdisj : ∀ x ∈ app, x ∉ order ++ queue := by
    intro x hx hmem
    obtain ⟨n, hn, rfl⟩ := List.mem_map.mp (happids x hx)
    have h1 := ((hcharN n hn).mp hx).1
    have h2 := LI.emitted n hn hmem
    omega
  -- the same-level property of this level
  have hsl : SameLevelOK g queue := by
    intro n hn hnq dep hdep
    have hrem := LI.queueRem n hn hnq
    have hplain := (remCount_zero_iff n.subtask order).mp hrem dep hdep
    have htgt := plainIn_target_mem hplain
    intro htq
    exact hodisj htgt htq
  refine ⟨⟨?_, ?_, ?_, ?_, ?_, ?_, ?_, ?_⟩, hsl⟩
  · -- nodup
    rw [happ', List.nodup_append]
    exact ⟨LI.nodupOQ, hnd, fun x hx hx2 => happdisj x hx2 hx⟩
  · -- subset
    intro x hx
    rw [happ'] at hx
    rcases List.mem_append.mp hx with hx | hx
    · exact LI.subOQ x hx
    · exact happids x hx
  · rw [K, LI.keys]
  · intro n hn
    rw [L n.subtask.id, LI.counter n hn, decSum_append]
    simp only [Option.map_some']
    congr 1
    omega
  · -- queueRem for the new queue
    intro n hn hnq
    rw [happ'] at hnq
    have h2 := ((hcharN n hn).mp hnq).2
    have hle := decSum_le_filter inv hn (S := order ++ queue) LI.nodupOQ
    have hadd := remCount_add_filter n.subtask (order ++ queue)
    omega
  · -- emitted
    intro n hn hmem
    rw [happ'] at hmem
    rw [List.append_assoc] at hmem
    rcases List.mem_append.mp hmem with hmem | hmem
    · have h2 := LI.emitted n hn (List.mem_append_left _ hmem)
      have : decSum g order n.subtask.id ≤
          decSum g (order ++ queue) n.subtask.id := by
        rw [decSum_append]
        omega
      omega
    · rcases List.mem_append.mp hmem with hmem | hmem
      · have h2 := LI.emitted n hn (List.mem_append_right _ hmem)
        have : decSum g order n.subtask.id ≤
            decSum g (order ++ queue) n.subtask.id := by
          rw [decSum_append]
          omega
        omega
      · exact ((hcharN n hn).mp hmem).2
  · -- before
    intro n hn k hk dep hdep
    by_cases hklen : k < order.length
    · rw [List.getElem?_append_left hklen] at hk
      have := LI.before n hn k hk dep hdep
      rw [List.take_append_eq_append_take]
      exact List.mem_append_left _ this
    · push_neg at hklen
      rw [List.getElem?_append_right hklen] at hk
      have hkq : n.subtask.id ∈ queue :=
        List.mem_iff_getElem?.mpr ⟨k - order.length, hk⟩
      have hrem := LI.queueRem n hn hkq
      have hplain := (remCount_zero_iff n.subtask order).mp hrem dep hdep
      have htgt := plainIn_target_mem hplain
      rw [List.take_append_eq_append_take, List.take_of_length_le hklen]
      exact List.mem_append_left _ htgt
  · -- strongQueue
    intro str n hn hrem hnot
    rw [happ']
    have hnotO : n.subtask.id ∉ order := fun hx =>
      hnot (List.mem_append_left _ hx)
    have hnotQ : n.subtask.id ∉ queue := fun hx =>
      hnot (List.mem_append_right _ hx)
    rw [hcharN n hn]
    have heq' := decSum_eq_filter str hn (S := order ++ queue) LI.nodupOQ hoqsub
    have hadd' := remCount_add_filter n.subtask (order ++ queue)
    have heq := decSum_eq_filter str hn (S := order) honodup hosub
    have hadd := remCount_add_filter n.subtask order
    have hrem1 : 1 ≤ remCount n.subtask order := by
      rcases Nat.eq_zero_or_pos (remCount n.subtask order) with h0 | h0
      · exact absurd (LI.strongQueue str n hn h0 hnotO) hnotQ
      · omega
    constructor
    · omega
    · omega

theorem sortLoop_spec {V : Type} {g : DependencyGraph V} (inv : BuiltInv g) :
    ∀ (fuel : Nat) (queue : List String) (ind : IndMap) (order : List String)
      (levels : List (List String)),
      LoopInv g queue ind order →
      (idsOf g).length - order.length < fuel →
      ∃ orderF levelsF,
        sortLoop g fuel queue ind order levels = (orderF, levelsF) ∧
        (levels.flatten = order → levelsF.flatten = orderF) ∧
        ((∀ L ∈ levels, SameLevelOK g L) → ∀ L ∈ levelsF, SameLevelOK g L) ∧
        orderF.Nodup ∧
        (∀ x ∈ orderF, x ∈ idsOf g) ∧
        (∀ n ∈ g, ∀ (k : Nat), orderF[k]? = some n.subtask.id →
          ∀ dep ∈ n.subtask.dependencies, Dep.target dep ∈ orderF.take k) ∧
        (∀ n ∈ g, n.subtask.id ∈ orderF →
          (n.subtask.dependencies.length : Int) -
            decSum g orderF n.subtask.id ≤ 0) ∧
        (StrongInv g → ∀ n ∈ g, remCount n.subtask orderF = 0 →
          n.subtask.id ∈ orderF) := by
  intro fuel
  induction fuel with
  | zero =>
      intro queue ind order levels LI hfu
      exact absurd hfu (by omega)
  | succ fuel ih =>
      intro queue ind order levels LI hfu
      by_cases hq : queue.isEmpty
      · have hqe : queue = [] := List.isEmpty_iff.mp hq
        subst hqe
        refine ⟨order, levels, ?_, fun h => h, fun h => h, ?_, ?_, LI.before,
          ?_, ?_⟩
        · simp [sortLoop]
        · simpa using LI.nodupOQ
        · intro x hx
          exact LI.subOQ x (by simpa using hx)
        · intro n hn hmem
          exact LI.emitted n hn (by simpa using hmem)
        · intro str n hn hrem
          by_contra hnot
          have := LI.strongQueue str n hn hrem hnot
          simp at this
      · have hqe : queue ≠ [] := fun h => hq (by simp [h])
        obtain ⟨LI', hsl⟩ := loopInv_step inv LI
        have hlen1 : order.length + queue.length ≤ (idsOf g).length := by
          have hnd : (order ++ queue).Nodup := LI.nodupOQ
          have hsub : (order ++ queue) ⊆ idsOf g := fun x hx => LI.subOQ x hx
          have := nodup_length_le hnd hsub
          simpa using this
        have hql : 1 ≤ queue.length := by
          cases queue with
          | nil => exact absurd rfl hqe
          | cons a r => simp
        have hfu' : (idsOf g).length - (order ++ queue).length < fuel := by
          rw [List.length_append]
          omega
        obtain ⟨orderF, levelsF, heq, hjoin, hslv, hnodup, hsub, hbefore,
          hemit, hstrong⟩ :=
          ih (processLevel g ind queue).2 (processLevel g ind queue).1
            (order ++ queue) (levels ++ [queue]) LI' hfu'
        refine ⟨orderF, levelsF, ?_, ?_, ?_, hnodup, hsub, hbefore, hemit,
          hstrong⟩
        · have hstep : sortLoop g (fuel + 1) queue ind order levels =
              sortLoop g fuel (processLevel g ind queue).2
                (processLevel g ind queue).1 (order ++ queue)
                (levels ++ [queue]) := by
            rw [sortLoop, if_neg hq]
          rw [hstep]
          exact heq
        · intro hjo
          apply hjoin
          rw [List.flatten_append]
          simp [hjo]
        · intro hall
          apply hslv
          intro L hL
          rcases List.mem_append.mp hL with h | h
          · exact hall L h
          · rw [List.mem_singleton] at h
            subst h
            exact hsl

theorem sort_eq {V : Type} (g : DependencyGraph V) :
    sort g = if g.isEmpty then Except.ok ⟨[], []⟩
      else if (initQueue g).isEmpty then Except.error cycleMsg
      else if (sortLoop g (g.length + 1) (initQueue g) (initInd g) [] []).1.length
          ≠ g.length
        then Except.error cycleMsg
        else Except.ok
          ⟨(sortLoop g (g.length + 1) (initQueue g) (initInd g) [] []).1,
            (sortLoop g (g.length + 1) (initQueue g) (initInd g) [] []).2⟩ := rfl

theorem remCount_nil {V : Type} (s : Subtask V) :
    remCount s [] = s.dependencies.length := by
  unfold remCount
  have h : s.dependencies.filter (fun d => !(plainIn [] d)) = s.dependencies :=
    List.filter_eq_self.mpr (fun a _ => by cases a <;> simp [plainIn])
  rw [h]

theorem node_unique {V : Type} {g : DependencyGraph V}
    (nodup : (idsOf g).Nodup) {n m : Node V} (hn : n ∈ g) (hm : m ∈ g)
    (h : n.subtask.id = m.subtask.id) : n = m := by
  have h1 := findNode_of_mem_nodup nodup hn
  have h2 := findNode_of_mem_nodup nodup hm
  rw [h] at h1
  rw [h1] at h2
  exact Option.some.inj h2

theorem alookup_initInd {V : Type} (g : DependencyGraph V) (k : String) :
    alookup (initInd g) k = (findNode g k).map (fun n => (n.indegree : Int)) := by
  unfold alookup initInd findNode
  rw [List.find?_map, Option.map_map]
  rfl

theorem initLoopInv {V : Type} {g : DependencyGraph V} (inv : BuiltInv g) :
    LoopInv g (initQueue g) (initInd g) [] := by
  have hqsub : ∀ x ∈ initQueue g, x ∈ idsOf g := by
    intro x hx
    obtain ⟨n, hn, rfl⟩ := List.mem_map.mp hx
    exact List.mem_map.mpr ⟨n, List.mem_of_mem_filter hn, rfl⟩
  have hqzero : ∀ x ∈ initQueue g, ∃ n ∈ g, n.subtask.id = x ∧ n.indegree = 0 := by
    intro x hx
    obtain ⟨n, hn, rfl⟩ := List.mem_map.mp hx
    obtain ⟨hng, hz⟩ := List.mem_filter.mp hn
    exact ⟨n, hng, rfl, by simpa using hz⟩
  refine ⟨?_, ?_, ?_, ?_, ?_, ?_, ?_, ?_⟩
  · show ([] ++ initQueue g).Nodup
    simp only [List.nil_append]
    unfold initQueue
    exact List.Nodup.sublist
      (List.Sublist.map (fun n => n.subtask.id) (List.filter_sublist g))
      inv.nodup
  · intro x hx
    exact hqsub x (by simpa using hx)
  · unfold initInd idsOf
    rw [List.map_map]
    rfl
  · intro n hn
    rw [alookup_initInd, findNode_of_mem_nodup inv.nodup hn, decSum_nil]
    simp only [Option.map_some']
    rw [inv.indeg n hn]
    simp
  · intro n hn hq
    obtain ⟨m, hm, hid, hz⟩ := hqzero n.subtask.id hq
    have hz' : n.indegree = 0 := by
      rw [← node_unique inv.nodup hm hn hid]
      exact hz
    have hlen : n.subtask.dependencies.length = 0 := by
      rw [← inv.indeg n hn]
      exact hz'
    rw [remCount_nil, hlen]
  · intro n hn hmem
    simp only [List.nil_append] at hmem
    obtain ⟨m, hm, hid, hz⟩ := hqzero n.subtask.id hmem
    have hz' : n.indegree = 0 := by
      rw [← node_unique inv.nodup hm hn hid]
      exact hz
    have hlen : n.subtask.dependencies.length = 0 := by
      rw [← inv.indeg n hn]
      exact hz'
    rw [decSum_nil, hlen]
    omega
  · intro n hn k hk
    simp at hk
  · intro str n hn hrem hnot
    rw [remCount_nil] at hrem
    have hz : n.indegree = 0 := by
      rw [inv.indeg n hn]
      exact hrem
    exact List.mem_map.mpr ⟨n, List.mem_filter.mpr ⟨hn, by simpa using hz⟩, rfl⟩

theorem sortRun_spec {V : Type} {g : DependencyGraph V} (inv : BuiltInv g) :
    ∃ orderF levelsF,
      sortLoop g (g.length + 1) (initQueue g) (initInd g) [] [] =
        (orderF, levelsF) ∧
      levelsF.flatten = orderF ∧
      (∀ L ∈ levelsF, SameLevelOK g L) ∧
      orderF.Nodup ∧
      (∀ x ∈ orderF, x ∈ idsOf g) ∧
      (∀ n ∈ g, ∀ (k : Nat), orderF[k]? = some n.subtask.id →
        ∀ dep ∈ n.subtask.dependencies, Dep.target dep ∈ orderF.take k) ∧
      (∀ n ∈ g, n.subtask.id ∈ orderF →
        (n.subtask.dependencies.length : Int) -
          decSum g orderF n.subtask.id ≤ 0) ∧
      (StrongInv g → ∀ n ∈ g, remCount n.subtask orderF = 0 →
        n.subtask.id ∈ orderF) := by
  have hfu : (idsOf g).length - ([] : List String).length < g.length + 1 := by
    simp only [idsOf, List.length_map, List.length_nil]
    omega
  obtain ⟨oF, lF, heq, hjoin, hsl, hnd, hsub, hbef, hemit, hstr⟩ :=
    sortLoop_spec inv (g.length + 1) (initQueue g) (initInd g) [] []
      (initLoopInv inv) hfu
  exact ⟨oF, lF, heq, hjoin rfl,
    hsl (fun L hL => absurd hL (List.not_mem_nil L)), hnd, hsub, hbef, hemit,
    hstr⟩

/- ----------------------------------------------------------------- -/
/- DFS cycle-detection soundness                                     -/
/- ----------------------------------------------------------------- -/

theorem dfsVisit_succ {V : Type} (g : DependencyGraph V) (fuel : Nat)
    (nodeId : String) (st : DfsState) :
    dfsVisit g (fuel + 1) nodeId st =
      match (match findNode g nodeId with
          | some node => node.subtask.dependencies
          | none => ([] : List (Dep V))).foldlM (dfsStep g fuel)
          ⟨st.visited ++ [nodeId], st.recStack ++ [nodeId],
            st.path ++ [nodeId]⟩ with
      | Except.error cycle => Except.error cycle
      | Except.ok st2 =>
          Except.ok ⟨st2.visited, st2.recStack.erase nodeId,
            st2.path.dropLast⟩ := rfl

theorem ChainE_cons {V : Type} {g : DependencyGraph V} {a : String}
    {l : List String} (h : ChainE g (a :: l)) : ChainE g l := by
  cases l with
  | nil => trivial
  | cons b r => exact h.2

theorem ChainE_suffix {V : Type} {g : DependencyGraph V} :
    ∀ (u w : List String), ChainE g (u ++ w) → ChainE g w := by
  intro u
  induction u with
  | nil => exact fun w h => h
  | cons a u ih => exact fun w h => ih w (ChainE_cons h)

theorem ChainE_snoc {V : Type} {g : DependencyGraph V} :
    ∀ (l : List String) (a b : String), ChainE g (l ++ [a]) → EdgeTo g a b →
      ChainE g (l ++ [a] ++ [b]) := by
  intro l
  induction l with
  | nil => exact fun a b _ hE => ⟨hE, trivial⟩
  | cons x l ih =>
      intro a b hch hE
      cases l with
      | nil => exact ⟨hch.1, ih a b trivial hE⟩
      | cons y l' => exact ⟨hch.1, ih a b hch.2 hE⟩

theorem EdgeTo_rank {V : Type} {g : DependencyGraph V} {rank : String → Nat}
    (hr : AcyclicRank g rank) {a b : String} (hE : EdgeTo g a b)
    (hb : b ∈ idsOf g) : rank b < rank a := by
  obtain ⟨n, hn, hna, hdep⟩ := hE
  have := hr n hn (Dep.plain b) hdep (by simpa [Dep.target] using hb)
  simpa [Dep.target, hna] using this

theorem EdgeTo_src_mem {V : Type} {g : DependencyGraph V} {a b : String}
    (hE : EdgeTo g a b) : a ∈ idsOf g := by
  obtain ⟨n, hn, hna, _⟩ := hE
  exact List.mem_map.mpr ⟨n, hn, hna⟩

theorem ChainE_rank_desc {V : Type} {g : DependencyGraph V}
    {rank : String → Nat} (hr : AcyclicRank g rank) :
    ∀ (w : List String) (a x : String), ChainE g (a :: w) →
      w.getLast? = some x → x ∈ idsOf g → rank x < rank a := by
  intro w
  induction w with
  | nil =>
      intro a x _ hl
      cases hl
  | cons b w' ihw =>
      intro a x hch hl hx
      cases w' with
      | nil =>
          have hxb : b = x := by simpa using hl
          subst hxb
          exact EdgeTo_rank hr hch.1 hx
      | cons c w'' =>
          have hch' : ChainE g (b :: c :: w'') := hch.2
          have hl' : (c :: w'').getLast? = some x := by
            rw [← List.getLast?_cons_cons]
            exact hl
          have h1 := ihw b x hch' hl' hx
          have hb : b ∈ idsOf g := EdgeTo_src_mem hch'.1
          have h2 : rank b < rank a := EdgeTo_rank hr hch.1 hb
          omega

theorem cycle_rank_contra {V : Type} {g : DependencyGraph V}
    {rank : String → Nat} (hr : AcyclicRank g rank) {p : List String}
    {last d : String} (hch : ChainE g (p ++ [last]))
    (hE : EdgeTo g last d) (hd : d ∈ p ++ [last]) : False := by
  obtain ⟨u, v, huv⟩ := List.append_of_mem hd
  have hchsuf : ChainE g (d :: v) := by
    rw [huv] at hch
    exact ChainE_suffix u (d :: v) hch
  have hlast : (d :: v).getLast? = some last := by
    have h0 : (p ++ [last]).getLast? = some last := List.getLast?_concat _
    rw [huv, List.getLast?_append] at h0
    cases hg : (d :: v).getLast? with
    | none =>
        rw [List.getLast?_eq_none_iff] at hg
        cases hg
    | some y =>
        rw [hg] at h0
        simpa using h0
  cases v with
  | nil =>
      have hdl : d = last := by simpa using hlast
      subst hdl
      exact absurd (EdgeTo_rank hr hE (EdgeTo_src_mem hE)) (lt_irrefl _)
  | cons c v' =>
      have hlast' : (c :: v').getLast? = some last := by
        rw [← List.getLast?_cons_cons]
        exact hlast
      have hdid : d ∈ idsOf g := EdgeTo_src_mem hchsuf.1
      have h1 : rank last < rank d :=
        ChainE_rank_desc hr (c :: v') d last hchsuf hlast' (EdgeTo_src_mem hE)
      have h2 : rank d < rank last := EdgeTo_rank hr hE hdid
      omega

theorem foldlM_except_inv {α β : Type} (P : β → Prop)
    (f : β → α → Except (List String) β) :
    ∀ (l : List α) (b : β), P b →
      (∀ b', P b' → ∀ a ∈ l, ∃ b'', f b' a = Except.ok b'' ∧ P b'') →
      ∃ bF, l.foldlM f b = Except.ok bF ∧ P bF := by
  intro l
  induction l with
  | nil =>
      intro b hb _
      exact ⟨b, rfl, hb⟩
  | cons a l ihl =>
      intro b hb hf
      obtain ⟨b1, hb1, hPb1⟩ := hf b hb a (List.mem_cons_self a l)
      obtain ⟨bF, hbF, hPF⟩ := ihl b1 hPb1
        (fun b' hb' a' ha' => hf b' hb' a' (List.mem_cons_of_mem a ha'))
      refine ⟨bF, ?_, hPF⟩
      rw [List.foldlM_cons, hb1]
      exact hbF

theorem dfsVisit_ok {V : Type} {g : DependencyGraph V} {rank : String → Nat}
    (hr : AcyclicRank g rank) :
    ∀ (fuel : Nat) (nodeId : String) (st : DfsState),
      st.recStack = st.path →
      (∀ x ∈ st.path, x ∈ st.visited) →
      st.path.Nodup →
      nodeId ∉ st.visited →
      ChainE g (st.path ++ [nodeId]) →
      ∃ vis, dfsVisit g fuel nodeId st =
          Except.ok ⟨vis, st.recStack, st.path⟩ ∧
        ∀ x ∈ st.visited, x ∈ vis := by
  intro fuel
  induction fuel with
  | zero =>
      intro nodeId st h1 h2 h3 h4 h5
      exact ⟨st.visited, rfl, fun x hx => hx⟩
  | succ fuel ih =>
      intro nodeId st h1 h2 h3 h4 h5
      have hnps : nodeId ∉ st.path := fun hx => h4 (h2 _ hx)
      have hnrs : nodeId ∉ st.recStack := by
        rw [h1]
        exact hnps
      set st1 : DfsState := ⟨st.visited ++ [nodeId], st.recStack ++ [nodeId],
        st.path ++ [nodeId]⟩ with hst1
      have hst1v : st1.visited = st.visited ++ [nodeId] := rfl
      have hst1r : st1.recStack = st.recStack ++ [nodeId] := rfl
      have hst1p : st1.path = st.path ++ [nodeId] := rfl
      have hP1 : st1.recStack = st1.recStack ∧ st1.path = st1.path ∧
          ∀ x ∈ st1.visited, x ∈ st1.visited := ⟨rfl, rfl, fun x hx => hx⟩
      cases hfn : findNode g nodeId with
      | none =>
          refine ⟨st.visited ++ [nodeId], ?_, fun x hx =>
            List.mem_append_left _ hx⟩
          rw [dfsVisit_succ, hfn]
          show (Except.ok ⟨st1.visited, st1.recStack.erase nodeId,
              st1.path.dropLast⟩ : Except (List String) DfsState) =
            Except.ok ⟨st.visited ++ [nodeId], st.recStack, st.path⟩
          rw [hst1v, hst1r, hst1p]
          rw [List.erase_append_right _ hnrs, List.erase_cons_head,
            List.append_nil, List.dropLast_concat]
      | some node =>
          have hnodeid : node.subtask.id = nodeId := by
            have := List.find?_some hfn
            simpa using this
          have hnodemem : node ∈ g := List.mem_of_find?_eq_some hfn
          have hstep : ∀ st', (st'.recStack = st1.recStack ∧
                st'.path = st1.path ∧ ∀ x ∈ st1.visited, x ∈ st'.visited) →
              ∀ dep ∈ node.subtask.dependencies,
              ∃ st'', dfsStep g fuel st' dep = Except.ok st'' ∧
                (st''.recStack = st1.recStack ∧ st''.path = st1.path ∧
                  ∀ x ∈ st1.visited, x ∈ st''.visited) := by
            intro st' hP' dep hdep
            obtain ⟨hrs', hpa', hvs'⟩ := hP'
            cases dep with
            | cond c => exact ⟨st', rfl, hrs', hpa', hvs'⟩
            | plain depId =>
                have hE : EdgeTo g nodeId depId :=
                  ⟨node, hnodemem, hnodeid, hdep⟩
                by_cases hvd : st'.visited.contains depId = true
                · by_cases hrd : st'.recStack.contains depId = true
                  · exfalso
                    have hdmem : depId ∈ st.path ++ [nodeId] := by
                      have hm : depId ∈ st'.recStack := by
                        simpa using hrd
                      rw [hrs', hst1r, h1] at hm
                      exact hm
                    exact cycle_rank_contra hr h5 hE hdmem
                  · refine ⟨st', ?_, hrs', hpa', hvs'⟩
                    show (if st'.visited.contains depId = true then
                        if st'.recStack.contains depId = true then
                          Except.error (cycleSlice st'.path depId)
                        else Except.ok st'
                      else dfsVisit g fuel depId st') = Except.ok st'
                    rw [if_pos hvd, if_neg hrd]
                · have hrp' : st'.recStack = st'.path := by
                    rw [hrs', hpa', hst1r, hst1p, h1]
                  have hpv' : ∀ x ∈ st'.path, x ∈ st'.visited := by
                    intro x hx
                    apply hvs'
                    rw [hpa', hst1p] at hx
                    rw [hst1v]
                    rcases List.mem_append.mp hx with h | h
                    · exact List.mem_append_left _ (h2 x h)
                    · exact List.mem_append_right _ h
                  have hnd' : st'.path.Nodup := by
                    rw [hpa', hst1p, List.nodup_append]
                    exact ⟨h3, List.nodup_singleton _,
                      fun a ha hb => hnps (by
                        rw [List.mem_singleton] at hb
                        exact hb ▸ ha)⟩
                  have hdv' : depId ∉ st'.visited := fun hm =>
                    hvd (by simpa using hm)
                  have hch' : ChainE g (st'.path ++ [depId]) := by
                    rw [hpa', hst1p]
                    exact ChainE_snoc st.path nodeId depId h5 hE
                  obtain ⟨vis2, hok, hsubv⟩ := ih depId st' hrp' hpv' hnd'
                    hdv' hch'
                  refine ⟨(⟨vis2, st'.recStack, st'.path⟩ : DfsState), ?_,
                    hrs', hpa', fun x hx => hsubv x (hvs' x hx)⟩
                  show (if st'.visited.contains depId = true then
                        if st'.recStack.contains depId = true then
                          Except.error (cycleSlice st'.path depId)
                        else Except.ok st'
                      else dfsVisit g fuel depId st') = _
                  rw [if_neg hvd]
                  exact hok
          obtain ⟨st2, hfold, hrs2, hpa2, hvs2⟩ :=
            foldlM_except_inv
              (fun st' => st'.recStack = st1.recStack ∧ st'.path = st1.path ∧
                ∀ x ∈ st1.visited, x ∈ st'.visited)
              (dfsStep g fuel) node.subtask.dependencies st1 hP1 hstep
          refine ⟨st2.visited, ?_, fun x hx =>
            hvs2 x (by rw [hst1v]; exact List.mem_append_left _ hx)⟩
          rw [dfsVisit_succ, hfn]
          show (match List.foldlM (dfsStep g fuel) st1
              node.subtask.dependencies with
            | Except.error cycle =>
                (Except.error cycle : Except (List String) DfsState)
            | Except.ok s => Except.ok ⟨s.visited,
                s.recStack.erase nodeId, s.path.dropLast⟩) =
            Except.ok ⟨st2.visited, st.recStack, st.path⟩
          rw [hfold]
          show (Except.ok ⟨st2.visited, st2.recStack.erase nodeId,
              st2.path.dropLast⟩ : Except (List String) DfsState) =
            Except.ok ⟨st2.visited, st.recStack, st.path⟩
          rw [hrs2, hpa2, hst1r, hst1p]
          rw [List.erase_append_right _ hnrs, List.erase_cons_head,
            List.append_nil, List.dropLast_concat]

theorem detectCycleGo_ok {V : Type} {g : DependencyGraph V}
    {rank : String → Nat} (hr : AcyclicRank g rank) :
    ∀ (roots : List String) (vis : List String),
      detectCycleGo g roots ⟨vis, [], []⟩ = { hasCycle := false } := by
  intro roots
  induction roots with
  | nil => intro vis; rfl
  | cons id rest ih =>
      intro vis
      show (if (⟨vis, [], []⟩ : DfsState).visited.contains id = true then
          detectCycleGo g rest ⟨vis, [], []⟩
        else match dfsVisit g (dfsFuel g) id
            ⟨(⟨vis, [], []⟩ : DfsState).visited,
              (⟨vis, [], []⟩ : DfsState).recStack, []⟩ with
          | Except.error cycle =>
              ({ hasCycle := true, cycle := some cycle } : CycleResult)
          | Except.ok st' => detectCycleGo g rest st') = { hasCycle := false }
      by_cases hv : vis.contains id = true
      · rw [if_pos hv]
        exact ih vis
      · rw [if_neg hv]
        obtain ⟨vis2, hok, _⟩ := dfsVisit_ok hr (dfsFuel g) id ⟨vis, [], []⟩
          rfl (by intro x hx; cases hx) List.nodup_nil
          (fun hm => hv (by simpa using hm)) trivial
        rw [hok]
        exact ih vis2

theorem detectCycle_acyclic {V : Type} {g : DependencyGraph V}
    {rank : String → Nat} (hr : AcyclicRank g rank) :
    detectCycle g = { hasCycle := false } := by
  show detectCycleGo g (g.map (fun n => n.subtask.id)) ⟨[], [], []⟩ = _
  exact detectCycleGo_ok hr (g.map (fun n => n.subtask.id)) []

/- ----------------------------------------------------------------- -/
/- The ordering claims on the topological sort                       -/
/- ----------------------------------------------------------------- -/

/-- Counterexample for C1: the declared edges of `c1Tasks` are acyclic
over the inserted ids (a rank function strictly orders them), yet
`getExecutionOrder` throws the cycle error instead of returning a
permutation: `B` was inserted before its dependency `A`, so the
back-link from `A` to `B` was never recorded and `B` is never
enqueued. -/
theorem getExecutionOrder_counterexample :
    buildGraph c1Tasks = Except.ok c1BadGraph ∧
    (∃ rank : String → Nat, ∀ t ∈ c1Tasks, ∀ dep ∈ t.dependencies,
        Dep.target dep ∈ c1Tasks.map (fun t => t.id) →
        rank (Dep.target dep) < rank t.id) ∧
    getExecutionOrder c1BadGraph = Except.error cycleMsg ∧
    getParallelLevels c1BadGraph = Except.error cycleMsg := by
  refine ⟨rfl, ⟨fun s => if s = "A" then 0 else 1, ?_⟩, rfl, rfl⟩
  decide

/-- C1 (amended): for every set of tasks inserted in dependency order
(every declared dependency a bare id of a previously inserted task),
`getExecutionOrder` returns a permutation of all task ids in which, for
every dependency edge `d → t`, `d` appears strictly before `t`. -/
theorem getExecutionOrder_amended {V : Type} {ts : List (Subtask V)}
    {g : DependencyGraph V} (hb : buildGraph ts = Except.ok g)
    (hord : depOrdered [] ts = true) :
    ∃ order, getExecutionOrder g = Except.ok order ∧
      order.Perm (idsOf g) ∧
      ∀ n ∈ g, ∀ (k : Nat), order[k]? = some n.subtask.id →
        ∀ dep ∈ n.subtask.dependencies, Dep.target dep ∈ order.take k := by
  have inv := buildGraph_inv hb
  have str := buildGraph_strong hb hord
  have hts : g.map (fun n => n.subtask) = ts := buildGraph_subtasks hb
  have hids : idsOf g = ts.map (fun t => t.id) := by
    rw [← hts, idsOf, List.map_map]
    rfl
  obtain ⟨oF, lF, heq, hjoin, hsl, hnd, hsub, hbef, hemit, hstr⟩ :=
    sortRun_spec inv
  have hcomplete : ∀ i, ∀ (hi : i < ts.length), (ts.get ⟨i, hi⟩).id ∈ oF := by
    intro i
    induction i using Nat.strong_induction_on with
    | _ i IH =>
      intro hi
      have hsmem : ts.get ⟨i, hi⟩ ∈ g.map (fun n => n.subtask) := by
        rw [hts]
        exact List.get_mem ts i hi
      obtain ⟨n, hng, hns⟩ := List.mem_map.mp hsmem
      rw [← hns]
      apply hstr str n hng
      rw [hns, remCount_zero_iff]
      intro dep hdep
      have hpl := depOrdered_get ts [] hord i hi dep hdep
      refine plainIn_mono ?_ (by simpa using hpl)
      intro x hx
      obtain ⟨j, hj⟩ := List.mem_iff_getElem?.mp hx
      rw [List.getElem?_take] at hj
      by_cases hji : j < i
      · rw [if_pos hji] at hj
        rw [List.getElem?_map] at hj
        obtain ⟨t, hts2, htx⟩ := Option.map_eq_some'.mp hj
        obtain ⟨hjlen, hjt⟩ := List.getElem?_eq_some.mp hts2
        have hmem := IH j hji hjlen
        have : ts.get ⟨j, hjlen⟩ = t := hjt
        rw [this, htx] at hmem
        exact hmem
      · rw [if_neg hji] at hj
        cases hj
  have hall : ∀ x ∈ idsOf g, x ∈ oF := by
    intro x hx
    rw [hids] at hx
    obtain ⟨t, htmem, rfl⟩ := List.mem_map.mp hx
    obtain ⟨j, hjlen, hjt⟩ := List.getElem_of_mem htmem
    have := hcomplete j hjlen
    rw [List.get_eq_getElem, hjt] at this
    exact this
  have hperm : oF.Perm (idsOf g) :=
    (List.perm_ext_iff_of_nodup hnd inv.nodup).mpr
      (fun a => ⟨fun h => hsub a h, fun h => hall a h⟩)
  by_cases hge : g.isEmpty = true
  · have hgnil : g = [] := List.isEmpty_iff.mp hge
    subst hgnil
    exact ⟨[], rfl, List.Perm.nil, by intro n hn; cases hn⟩
  · have hlenF : oF.length = g.length := by
      rw [hperm.length_eq]
      simp [idsOf]
    have hsort : sort g = Except.ok ⟨oF, lF⟩ := by
      rw [sort_eq, if_neg hge]
      have hq : ¬((initQueue g).isEmpty = true) := by
        obtain ⟨n₀, g', hgc⟩ : ∃ n₀ g', g = n₀ :: g' := by
          cases g with
          | nil => exact absurd rfl hge
          | cons a l => exact ⟨a, l, rfl⟩
        have hn₀ : n₀ ∈ g := by
          rw [hgc]
          exact List.mem_cons_self n₀ g'
        have hts2 : n₀.subtask :: g'.map (fun n => n.subtask) = ts := by
          rw [← hts, hgc]
          rfl
        have hdeps : n₀.subtask.dependencies = [] := by
          rw [← hts2] at hord
          simp only [depOrdered, Bool.and_eq_true] at hord
          have hall0 := List.all_eq_true.mp hord.1
          rw [List.eq_nil_iff_forall_not_mem]
          intro dep hdep
          have hfalse := hall0 dep hdep
          cases dep with
          | plain i => simp [plainIn] at hfalse
          | cond c => simp [plainIn] at hfalse
        have hind0 : n₀.indegree = 0 := by
          rw [inv.indeg n₀ hn₀, hdeps]
          rfl
        have hmemq : n₀.subtask.id ∈ initQueue g := by
          unfold initQueue
          exact List.mem_map.mpr ⟨n₀,
            List.mem_filter.mpr ⟨hn₀, by simpa using hind0⟩, rfl⟩
        intro hqe
        rw [List.isEmpty_iff.mp hqe] at hmemq
        cases hmemq
      rw [if_neg hq, heq,
        if_neg (show ¬((oF, lF).1.length ≠ g.length) from fun h => h hlenF)]
    refine ⟨oF, ?_, hperm, hbef⟩
    show (sort g).map (fun eo => eo.order) = Except.ok oF
    rw [hsort]
    rfl

/-- Witness for C1 on the two-task graph inserted in dependency
order. -/
theorem getExecutionOrder_amended_witness :
    depOrdered [] c1GoodTasks = true ∧
    ∃ order, getExecutionOrder c1GoodGraph = Except.ok order ∧
      order.Perm (idsOf c1GoodGraph) ∧
      ∀ n ∈ c1GoodGraph, ∀ (k : Nat), order[k]? = some n.subtask.id →
        ∀ dep ∈ n.subtask.dependencies, Dep.target dep ∈ order.take k :=
  ⟨rfl, @getExecutionOrder_amended Nat c1GoodTasks c1GoodGraph rfl rfl⟩

/-- C2: on every graph built by `addSubtask` insertions, whenever the
topological sort succeeds the concatenation of the batches of
`getParallelLevels` equals the list returned by `getExecutionOrder`,
and no two task ids placed in the same level have a direct dependency
edge between them. -/
theorem getParallelLevels_flatten_spec {V : Type} {ts : List (Subtask V)}
    {g : DependencyGraph V} {eo : ExecutionOrder}
    (hb : buildGraph ts = Except.ok g) (hs : sort g = Except.ok eo) :
    getExecutionOrder g = Except.ok eo.order ∧
    getParallelLevels g = Except.ok eo.parallelLevels ∧
    eo.parallelLevels.flatten = eo.order ∧
    ∀ L ∈ eo.parallelLevels, ∀ a ∈ L, ∀ b ∈ L, ¬ EdgeTo g a b := by
  have inv := buildGraph_inv hb
  refine ⟨by rw [getExecutionOrder, hs]; rfl,
    by rw [getParallelLevels, hs]; rfl, ?_⟩
  obtain ⟨oF, lF, heq, hjoin, hsl, hnd, hsub, hbef, hemit, hstr⟩ :=
    sortRun_spec inv
  rw [sort_eq] at hs
  by_cases hge : g.isEmpty = true
  · rw [if_pos hge] at hs
    cases Except.ok.inj hs
    exact ⟨rfl, by intro L hL; cases hL⟩
  · rw [if_neg hge] at hs
    by_cases hq : (initQueue g).isEmpty = true
    · rw [if_pos hq] at hs
      cases hs
    · rw [if_neg hq] at hs
      by_cases hlen :
          (sortLoop g (g.length + 1) (initQueue g) (initInd g) [] []).1.length
            ≠ g.length
      · rw [if_pos hlen] at hs
        cases hs
      · rw [if_neg hlen] at hs
        have he := Except.ok.inj hs
        rw [heq] at he
        cases he
        refine ⟨hjoin, ?_⟩
        intro L hL a ha b hbL hedge
        obtain ⟨n, hn, hna, hdep⟩ := hedge
        have hnot := hsl L hL n hn (by rw [hna]; exact ha) (Dep.plain b) hdep
        exact hnot (by simpa [Dep.target] using hbL)

/-- Witness for C2: the diamond-head graph sorts into the levels
`[[A], [B, C]]`, which flatten to the order `[A, B, C]` and contain no
same-level dependency edge. -/
theorem getParallelLevels_flatten_spec_witness :
    getExecutionOrder c2Graph =
        Except.ok (⟨["A", "B", "C"], [["A"], ["B", "C"]]⟩ :
          ExecutionOrder).order ∧
    getParallelLevels c2Graph =
        Except.ok (⟨["A", "B", "C"], [["A"], ["B", "C"]]⟩ :
          ExecutionOrder).parallelLevels ∧
    (⟨["A", "B", "C"], [["A"], ["B", "C"]]⟩ :
        ExecutionOrder).parallelLevels.flatten =
      (⟨["A", "B", "C"], [["A"], ["B", "C"]]⟩ : ExecutionOrder).order ∧
    ∀ L ∈ (⟨["A", "B", "C"], [["A"], ["B", "C"]]⟩ :
        ExecutionOrder).parallelLevels,
      ∀ a ∈ L, ∀ b ∈ L, ¬ EdgeTo c2Graph a b :=
  @getParallelLevels_flatten_spec Nat c2Tasks c2Graph
    ⟨["A", "B", "C"], [["A"], ["B", "C"]]⟩ rfl rfl

/-- C9: if an inserted task declares a dependency id that was never
added to the graph, `getExecutionOrder` and `getParallelLevels` throw
the cycle error even when the declared edges over the inserted ids are
acyclic (the missing dependency keeps the task at positive indegree),
while `detectCycle` on the same graph returns `hasCycle = false` with
no cycle sequence. -/
theorem missing_dep_spec {V : Type} {ts : List (Subtask V)}
    {g : DependencyGraph V} (hb : buildGraph ts = Except.ok g)
    {t : Subtask V} {d : String} (ht : t ∈ ts)
    (hd : Dep.plain d ∈ t.dependencies)
    (hmiss : d ∉ ts.map (fun t => t.id))
    (rank : String → Nat)
    (hr : ∀ s ∈ ts, ∀ dep ∈ s.dependencies,
      Dep.target dep ∈ ts.map (fun t => t.id) →
      rank (Dep.target dep) < rank s.id) :
    getExecutionOrder g = Except.error cycleMsg ∧
    getParallelLevels g = Except.error cycleMsg ∧
    detectCycle g = { hasCycle := false, cycle := none } := by
  have inv := buildGraph_inv hb
  have hts : g.map (fun n => n.subtask) = ts := buildGraph_subtasks hb
  have hids : idsOf g = ts.map (fun t => t.id) := by
    rw [← hts, idsOf, List.map_map]
    rfl
  have hrg : AcyclicRank g rank := by
    intro n hn dep hdep htar
    rw [hids] at htar
    exact hr n.subtask (by rw [← hts]; exact List.mem_map.mpr ⟨n, hn, rfl⟩)
      dep hdep htar
  obtain ⟨n, hng, hns⟩ : ∃ n ∈ g, n.subtask = t := by
    have : t ∈ g.map (fun n => n.subtask) := by
      rw [hts]
      exact ht
    obtain ⟨n, hn, hnt⟩ := List.mem_map.mp this
    exact ⟨n, hn, hnt⟩
  have hsort : sort g = Except.error cycleMsg := by
    have hge : ¬(g.isEmpty = true) := by
      intro hge
      rw [List.isEmpty_iff.mp hge] at hng
      cases hng
    rw [sort_eq, if_neg hge]
    by_cases hq : (initQueue g).isEmpty = true
    · rw [if_pos hq]
    · rw [if_neg hq]
      obtain ⟨oF, lF, heq, hjoin, hsl, hnd, hsub, hbef, hemit, hstr⟩ :=
        sortRun_spec inv
      rw [heq]
      have hne : oF.length ≠ g.length := by
        intro hlen
        have hperm : oF.Perm (idsOf g) :=
          List.Subperm.perm_of_length_le
            (List.subperm_of_subset hnd (fun x hx => hsub x hx))
            (by simpa [idsOf] using Nat.le_of_eq hlen.symm)
        have hmem : n.subtask.id ∈ oF :=
          hperm.mem_iff.mpr (List.mem_map.mpr ⟨n, hng, rfl⟩)
        have hle := hemit n hng hmem
        have hdec : decSum g oF n.subtask.id ≤
            (n.subtask.dependencies.filter (plainIn oF)).length :=
          decSum_le_filter inv hng hnd
        have hflt : (n.subtask.dependencies.filter (plainIn oF)).length <
            n.subtask.dependencies.length := by
          rw [List.length_filter_lt_length_iff_exists]
          refine ⟨Dep.plain d, by rw [hns]; exact hd, ?_⟩
          show ¬ (plainIn oF (Dep.plain d) = true)
          simp only [plainIn]
          intro hc
          have hdo : d ∈ oF := by simpa using hc
          have := hsub d hdo
          rw [hids] at this
          exact hmiss this
        omega
      rw [if_pos (show (oF, lF).1.length ≠ g.length from hne)]
  refine ⟨?_, ?_, detectCycle_acyclic hrg⟩
  · show (sort g).map (fun eo => eo.order) = Except.error cycleMsg
    rw [hsort]
    rfl
  · show (sort g).map (fun eo => eo.parallelLevels) = Except.error cycleMsg
    rw [hsort]
    rfl

/-- Witness for C9: the `c9Graph` scenario with the missing dependency
id `Z`. -/
theorem missing_dep_spec_witness :
    getExecutionOrder c9Graph = Except.error cycleMsg ∧
    getParallelLevels c9Graph = Except.error cycleMsg ∧
    detectCycle c9Graph = { hasCycle := false, cycle := none } :=
  @missing_dep_spec Nat c9Tasks c9Graph rfl
    { id := "B", dependencies := [Dep.plain "A", Dep.plain "Z"] } "Z"
    (List.mem_cons_of_mem _ (List.mem_cons_self _ _))
    (List.mem_cons_of_mem _ (List.mem_cons_self _ _))
    (by decide)
    (fun s => if s = "B" then 1 else 0)
    (by decide)

end LLMOrch
